import Mathlib

/-!
Verification of the hospigen change-event router (`bridge/main.py`).

This file is a shallow embedding, in Lean 4, of the router's pure core:

* a model of JSON values (`JValue`), of Python dictionaries as association
  lists with string keys, and of the Python truthiness / `or` idiom;
* an executable SHA-256 (the router derives `event_id` with `hashlib.sha256`);
* an executable model of `json.dumps(..., separators=(",", ":"))` and of
  `json.loads` (Python's strict decoder), together with a proof that parsing
  a dumped value recovers it;
* translations of the routing helpers `occurred_at`, `build_envelope`,
  `choose_topic_for_observation`, `choose_topic_for_encounter`,
  `choose_topic_for_appointment`, `_coerce_resource`, `_looks_like_envelope`,
  and of the `/pubsub/push` orchestration, with Python exceptions modelled by
  `Except String` and the two network calls (resource fetch, publish) passed
  in as oracles whose uses are recorded as effects.

Model boundaries, stated once here: wall-clock time (`now_iso`) is passed in
as a parameter; floating-point JSON numbers are outside the model (the value
type carries exact integers only, and the parser rejects a fraction or an
exponent instead of building a float); text is Unicode scalar values (Lean
`Char`), so JSON escape sequences denoting lone UTF-16 surrogates are
rejected by the modelled parser; `.lower()`/`.upper()`/`str.strip()` are
modelled on ASCII, which covers every string the router compares.
-/

/-! ### JSON values -/

/-- A JSON value as produced by Python's `json.loads`: `null`, booleans,
(integer) numbers, strings, arrays, and objects. Objects are association
lists in insertion order, mirroring Python dictionaries. -/
inductive JValue where
  | null
  | bool (b : Bool)
  | num (n : Int)
  | str (s : String)
  | arr (elems : List JValue)
  | obj (fields : List (String × JValue))
deriving Repr

/-- A Python dictionary with string keys, the shape of every resource the
router manipulates. -/
abbrev Obj := List (String × JValue)

mutual
def JValue.beq : JValue → JValue → Bool
  | .null, .null => true
  | .bool a, .bool b => a == b
  | .num a, .num b => a == b
  | .str a, .str b => a == b
  | .arr a, .arr b => beqList a b
  | .obj a, .obj b => beqFields a b
  | _, _ => false
def JValue.beqList : List JValue → List JValue → Bool
  | [], [] => true
  | a :: as_, b :: bs => JValue.beq a b && beqList as_ bs
  | _, _ => false
def JValue.beqFields : Obj → Obj → Bool
  | [], [] => true
  | (k, a) :: as_, (l, b) :: bs => k == l && JValue.beq a b && beqFields as_ bs
  | _, _ => false
end

mutual
theorem JValue.beq_iff : ∀ a b : JValue, JValue.beq a b = true ↔ a = b
  | .null, b => by cases b <;> simp [JValue.beq]
  | .bool x, b => by cases b <;> simp [JValue.beq]
  | .num x, b => by cases b <;> simp [JValue.beq]
  | .str x, b => by cases b <;> simp [JValue.beq]
  | .arr xs, b => by
      cases b <;> simp [JValue.beq]
      exact JValue.beqList_iff xs _
  | .obj xs, b => by
      cases b <;> simp [JValue.beq]
      exact JValue.beqFields_iff xs _
theorem JValue.beqList_iff : ∀ a b : List JValue, JValue.beqList a b = true ↔ a = b
  | [], b => by cases b <;> simp [JValue.beqList]
  | x :: xs, b => by
      cases b with
      | nil => simp [JValue.beqList]
      | cons y ys =>
          simp [JValue.beqList, Bool.and_eq_true, JValue.beq_iff x y,
            JValue.beqList_iff xs ys]
theorem JValue.beqFields_iff : ∀ a b : Obj, JValue.beqFields a b = true ↔ a = b
  | [], b => by cases b <;> simp [JValue.beqFields]
  | (k, x) :: xs, b => by
      cases b with
      | nil => simp [JValue.beqFields]
      | cons y ys =>
          obtain ⟨l, v⟩ := y
          simp [JValue.beqFields, Bool.and_eq_true, JValue.beq_iff x v,
            JValue.beqFields_iff xs ys, and_assoc]
end

instance : DecidableEq JValue := fun a b =>
  decidable_of_iff (JValue.beq a b = true) (JValue.beq_iff a b)

/-! ### Python dictionary and truthiness semantics -/

/-- Python `d.get(k)` on a string-keyed dictionary: the bound value, or
nothing when the key is absent. A JSON `null` binding is a *present* `None`
value, distinct from an absent key. -/
def pyGet (d : Obj) (k : String) : Option JValue :=
  match d with
  | [] => none
  | (k0, v) :: rest => if k0 = k then some v else pyGet rest k

/-- Python `d.get(k, dflt)`: the default applies only when the key is absent. -/
def pyGetD (d : Obj) (k : String) (dflt : JValue) : JValue :=
  match pyGet d k with
  | some v => v
  | none => dflt

/-- Python `k in d`. -/
def pyHasKey (d : Obj) (k : String) : Bool :=
  match pyGet d k with
  | some _ => true
  | none => false

/-- Python truthiness of a JSON-shaped value: `None`, `False`, `0`, `""`,
`[]` and `{}` are falsy; everything else is truthy. -/
def pyTruthy : JValue → Bool
  | .null => false
  | .bool b => b
  | .num n => n != 0
  | .str s => s != ""
  | .arr es => !es.isEmpty
  | .obj fs => !fs.isEmpty

/-- First truthy value of a list of `.get` results, modelling a Python
`a or b or ...` chain whose tail is handled by the caller. -/
def firstTruthy : List (Option JValue) → Option JValue
  | [] => none
  | none :: rest => firstTruthy rest
  | some v :: rest => if pyTruthy v then some v else firstTruthy rest

/-- ASCII lower-casing, modelling `str.lower()` on the ASCII strings the
router compares (statuses, class codes, coding systems). -/
def asciiLowerChar (c : Char) : Char :=
  if 'A' ≤ c ∧ c ≤ 'Z' then Char.ofNat (c.toNat + 32) else c

def asciiLower (s : String) : String := String.mk (s.data.map asciiLowerChar)

/-- ASCII upper-casing, modelling `str.upper()` likewise. -/
def asciiUpperChar (c : Char) : Char :=
  if 'a' ≤ c ∧ c ≤ 'z' then Char.ofNat (c.toNat - 32) else c

def asciiUpper (s : String) : String := String.mk (s.data.map asciiUpperChar)

/-- Python `str.strip()` whitespace set (ASCII part). -/
def pyWsChar (c : Char) : Bool :=
  c = ' ' ∨ c = '\t' ∨ c = '\n' ∨ c = '\r' ∨ c = Char.ofNat 11 ∨ c = Char.ofNat 12

/-- Python `s.strip()`: drop leading and trailing whitespace. -/
def pyStrip (s : String) : String :=
  String.mk (((s.data.dropWhile pyWsChar).reverse.dropWhile pyWsChar).reverse)

/-! ### Decimal digits (for number printing) -/

def digitChar (n : Nat) : Char := Char.ofNat ('0'.toNat + n % 10)

/-- Decimal digit characters of a natural number, most significant first. -/
def natDigits (n : Nat) : List Char :=
  if n < 10 then [digitChar n] else natDigits (n / 10) ++ [digitChar (n % 10)]
termination_by n
decreasing_by exact Nat.div_lt_self (by omega) (by omega)

/-- Characters of an integer's decimal form, as `repr`/`json.dumps` print it. -/
def intDigits (i : Int) : List Char :=
  (if i < 0 then ['-'] else []) ++ natDigits i.natAbs

/-! ### Python `str()` / `repr()` of JSON-shaped values

`build_envelope` interpolates resource fields into f-strings and
`_coerce_resource` wraps non-JSON input as `str(v)`, so the embedding needs
Python's text rendering of the values it can meet. `repr` of a string picks
single quotes unless the text contains a single quote and no double quote,
and escapes backslash, the quote, and non-printable ASCII. -/

def hexDigitLower (n : Nat) : Char :=
  if n % 16 < 10 then Char.ofNat ('0'.toNat + n % 16)
  else Char.ofNat ('a'.toNat + n % 16 - 10)

def pyReprQuote (s : String) : Char :=
  if s.data.contains '\'' ∧ ¬ s.data.contains '"' then '"' else '\''

def pyReprStrChar (q : Char) (c : Char) : List Char :=
  if c = '\\' then ['\\', '\\']
  else if c = q then ['\\', q]
  else if c = '\n' then ['\\', 'n']
  else if c = '\r' then ['\\', 'r']
  else if c = '\t' then ['\\', 't']
  else if c.toNat < 0x20 ∨ c.toNat = 0x7f then
    ['\\', 'x', hexDigitLower (c.toNat / 16), hexDigitLower c.toNat]
  else [c]

def pyReprStr (s : String) : List Char :=
  let q := pyReprQuote s
  q :: (s.data.flatMap (pyReprStrChar q) ++ [q])

mutual
def pyReprL : JValue → List Char
  | .null => ['N', 'o', 'n', 'e']
  | .bool true => ['T', 'r', 'u', 'e']
  | .bool false => ['F', 'a', 'l', 's', 'e']
  | .num n => intDigits n
  | .str s => pyReprStr s
  | .arr es => '[' :: (pyReprItems es ++ [']'])
  | .obj fs => '{' :: (pyReprEntries fs ++ ['}'])
def pyReprItems : List JValue → List Char
  | [] => []
  | [e] => pyReprL e
  | e :: rest => pyReprL e ++ (',' :: ' ' :: pyReprItems rest)
def pyReprEntries : Obj → List Char
  | [] => []
  | [(k, v)] => pyReprStr k ++ (':' :: ' ' :: pyReprL v)
  | (k, v) :: rest => pyReprStr k ++ (':' :: ' ' :: (pyReprL v ++ (',' :: ' ' :: pyReprEntries rest)))
end

/-- Python `str(v)` of a JSON-shaped value: a string is itself, everything
else prints by `repr`. -/
def pyStr : JValue → String
  | .str s => s
  | v => String.mk (pyReprL v)

/-! ### UTF-8 -/

/-- UTF-8 bytes of one Unicode scalar value. -/
def utf8EncodeChar (c : Char) : List Nat :=
  let n := c.toNat
  if n < 0x80 then [n]
  else if n < 0x800 then [0xC0 + n / 64, 0x80 + n % 64]
  else if n < 0x10000 then [0xE0 + n / 4096, 0x80 + n / 64 % 64, 0x80 + n % 64]
  else [0xF0 + n / 262144, 0x80 + n / 4096 % 64, 0x80 + n / 64 % 64, 0x80 + n % 64]

/-- UTF-8 bytes of a string, modelling `s.encode("utf-8")`. -/
def utf8Encode (s : String) : List Nat := s.data.flatMap utf8EncodeChar

def utf8Cont (b : Nat) : Bool := 0x80 ≤ b ∧ b ≤ 0xBF

/-- Strict UTF-8 decoding, modelling `bytes.decode("utf-8")`: rejects
overlong forms, surrogates, and truncated sequences, as CPython does. -/
def utf8DecodeAux : List Nat → Option (List Char)
  | [] => some []
  | b :: rest =>
    if b < 0x80 then
      (utf8DecodeAux rest).map (Char.ofNat b :: ·)
    else if 0xC2 ≤ b ∧ b ≤ 0xDF then
      match rest with
      | b2 :: r2 =>
        if utf8Cont b2 then
          (utf8DecodeAux r2).map (Char.ofNat ((b - 0xC0) * 64 + (b2 - 0x80)) :: ·)
        else none
      | [] => none
    else if 0xE0 ≤ b ∧ b ≤ 0xEF then
      match rest with
      | b2 :: b3 :: r3 =>
        let lo2 := if b = 0xE0 then 0xA0 else 0x80
        let hi2 := if b = 0xED then 0x9F else 0xBF
        if (lo2 ≤ b2 ∧ b2 ≤ hi2) ∧ utf8Cont b3 then
          (utf8DecodeAux r3).map
            (Char.ofNat ((b - 0xE0) * 4096 + (b2 - 0x80) * 64 + (b3 - 0x80)) :: ·)
        else none
      | _ => none
    else if 0xF0 ≤ b ∧ b ≤ 0xF4 then
      match rest with
      | b2 :: b3 :: b4 :: r4 =>
        let lo2 := if b = 0xF0 then 0x90 else 0x80
        let hi2 := if b = 0xF4 then 0x8F else 0xBF
        if (lo2 ≤ b2 ∧ b2 ≤ hi2) ∧ utf8Cont b3 ∧ utf8Cont b4 then
          (utf8DecodeAux r4).map
            (Char.ofNat ((b - 0xF0) * 262144 + (b2 - 0x80) * 4096 + (b3 - 0x80) * 64
              + (b4 - 0x80)) :: ·)
        else none
      | _ => none
    else none

def utf8Decode (bs : List Nat) : Option String :=
  (utf8DecodeAux bs).map String.mk

/-- Decoding with `errors="ignore"`: an undecodable position drops a byte and
decoding continues. (CPython drops the maximal invalid subpart; the router
only ever stores this text opaquely, so the finer point is not load-bearing.) -/
def utf8DecodeIgnoreAux : List Nat → List Char
  | [] => []
  | b :: rest =>
    if b < 0x80 then Char.ofNat b :: utf8DecodeIgnoreAux rest
    else if 0xC2 ≤ b ∧ b ≤ 0xDF then
      match h : rest with
      | b2 :: r2 =>
        if utf8Cont b2 then Char.ofNat ((b - 0xC0) * 64 + (b2 - 0x80)) :: utf8DecodeIgnoreAux r2
        else utf8DecodeIgnoreAux rest
      | [] => []
    else if 0xE0 ≤ b ∧ b ≤ 0xEF then
      match h : rest with
      | b2 :: b3 :: r3 =>
        let lo2 := if b = 0xE0 then 0xA0 else 0x80
        let hi2 := if b = 0xED then 0x9F else 0xBF
        if (lo2 ≤ b2 ∧ b2 ≤ hi2) ∧ utf8Cont b3 then
          Char.ofNat ((b - 0xE0) * 4096 + (b2 - 0x80) * 64 + (b3 - 0x80)) :: utf8DecodeIgnoreAux r3
        else utf8DecodeIgnoreAux rest
      | _ => utf8DecodeIgnoreAux rest
    else if 0xF0 ≤ b ∧ b ≤ 0xF4 then
      match h : rest with
      | b2 :: b3 :: b4 :: r4 =>
        let lo2 := if b = 0xF0 then 0x90 else 0x80
        let hi2 := if b = 0xF4 then 0x8F else 0xBF
        if (lo2 ≤ b2 ∧ b2 ≤ hi2) ∧ utf8Cont b3 ∧ utf8Cont b4 then
          Char.ofNat ((b - 0xF0) * 262144 + (b2 - 0x80) * 4096 + (b3 - 0x80) * 64 + (b4 - 0x80))
            :: utf8DecodeIgnoreAux r4
        else utf8DecodeIgnoreAux rest
      | _ => utf8DecodeIgnoreAux rest
    else utf8DecodeIgnoreAux rest
termination_by l => l.length
decreasing_by all_goals (simp_all only [List.length_cons]; omega)

def utf8DecodeIgnore (bs : List Nat) : String := String.mk (utf8DecodeIgnoreAux bs)

/-! ### Base64 (`base64.b64decode` with `validate=False`) -/

/-- Alphabet index of a base64 character. -/
def b64Val (c : Char) : Option Nat :=
  if 'A' ≤ c ∧ c ≤ 'Z' then some (c.toNat - 'A'.toNat)
  else if 'a' ≤ c ∧ c ≤ 'z' then some (c.toNat - 'a'.toNat + 26)
  else if '0' ≤ c ∧ c ≤ '9' then some (c.toNat - '0'.toNat + 52)
  else if c = '+' then some 62
  else if c = '/' then some 63
  else none

def b64Quad (a b : Nat) : Nat := a * 4 + b / 16

def b64GroupsDecode : List Char → Option (List Nat)
  | [] => some []
  | [_] => none
  | [a, b] =>
    match b64Val a, b64Val b with
    | some va, some vb => some [va * 4 + vb / 16]
    | _, _ => none
  | [a, b, c] =>
    match b64Val a, b64Val b, b64Val c with
    | some va, some vb, some vc => some [va * 4 + vb / 16, vb % 16 * 16 + vc / 4]
    | _, _, _ => none
  | a :: b :: c :: d :: rest =>
    match b64Val a, b64Val b, b64Val c, b64Val d with
    | some va, some vb, some vc, some vd =>
      (b64GroupsDecode rest).map
        (fun tail => (va * 4 + vb / 16) :: (vb % 16 * 16 + vc / 4) :: (vc % 4 * 64 + vd) :: tail)
    | _, _, _, _ => none

/-- Python `base64.b64decode(s)` (default `validate=False`): characters
outside the alphabet and `=` are discarded, the kept text must be a multiple
of four long, and everything before the first `=` is decoded. -/
def b64decode (s : String) : Option (List Nat) :=
  let kept := s.data.filter (fun c => (b64Val c).isSome ∨ c = '=')
  if kept.length % 4 = 0 then b64GroupsDecode (kept.takeWhile (fun c => c ≠ '=')) else none

/-! ### SHA-256 (`hashlib.sha256(...).hexdigest()`)

The router's `event_id` is a SHA-256 hex digest, so the hash is embedded
executably: 32-bit words are naturals reduced mod `2^32`. -/

def m32 (x : Nat) : Nat := x % 4294967296

def rotr32 (n x : Nat) : Nat := m32 ((x >>> n) ||| (x <<< (32 - n)))

def shaK : List Nat :=
  [1116352408, 1899447441, 3049323471, 3921009573, 961987163, 1508970993,
   2453635748, 2870763221, 3624381080, 310598401, 607225278, 1426881987,
   1925078388, 2162078206, 2614888103, 3248222580, 3835390401, 4022224774,
   264347078, 604807628, 770255983, 1249150122, 1555081692, 1996064986,
   2554220882, 2821834349, 2952996808, 3210313671, 3336571891, 3584528711,
   113926993, 338241895, 666307205, 773529912, 1294757372, 1396182291,
   1695183700, 1986661051, 2177026350, 2456956037, 2730485921, 2820302411,
   3259730800, 3345764771, 3516065817, 3600352804, 4094571909, 275423344,
   430227734, 506948616, 659060556, 883997877, 958139571, 1322822218,
   1537002063, 1747873779, 1955562222, 2024104815, 2227730452, 2361852424,
   2428436474, 2756734187, 3204031479, 3329325298]

def shaH0 : List Nat :=
  [1779033703, 3144134277, 1013904242, 2773480762,
   1359893119, 2600822924, 528734635, 1541459225]

def bigSigma0 (x : Nat) : Nat := rotr32 2 x ^^^ rotr32 13 x ^^^ rotr32 22 x
def bigSigma1 (x : Nat) : Nat := rotr32 6 x ^^^ rotr32 11 x ^^^ rotr32 25 x
def smallSigma0 (x : Nat) : Nat := rotr32 7 x ^^^ rotr32 18 x ^^^ (x >>> 3)
def smallSigma1 (x : Nat) : Nat := rotr32 17 x ^^^ rotr32 19 x ^^^ (x >>> 10)
def shaCh (x y z : Nat) : Nat := (x &&& y) ^^^ ((x ^^^ 0xffffffff) &&& z)
def shaMaj (x y z : Nat) : Nat := (x &&& y) ^^^ (x &&& z) ^^^ (y &&& z)

/-- Big-endian 8-byte form of a (64-bit) length in bits. -/
def be8 (n : Nat) : List Nat :=
  [n / 72057594037927936 % 256, n / 281474976710656 % 256,
   n / 1099511627776 % 256, n / 4294967296 % 256,
   n / 16777216 % 256, n / 65536 % 256, n / 256 % 256, n % 256]

/-- SHA-256 message padding: `0x80`, zeros to 56 mod 64, 8-byte bit length. -/
def shaPad (msg : List Nat) : List Nat :=
  msg ++ 0x80 :: (List.replicate ((119 - msg.length % 64) % 64) 0 ++ be8 (msg.length * 8))

def bytesToWords : List Nat → List Nat
  | b1 :: b2 :: b3 :: b4 :: rest => (((b1 * 256 + b2) * 256 + b3) * 256 + b4) :: bytesToWords rest
  | _ => []

/-- Message-schedule extension, keeping the schedule most-recent-first. -/
def shaSchedRev (ws : List Nat) : Nat → List Nat
  | 0 => ws
  | k + 1 =>
    shaSchedRev
      (m32 (smallSigma1 (ws.getD 1 0) + ws.getD 6 0 + smallSigma0 (ws.getD 14 0)
        + ws.getD 15 0) :: ws) k

def shaRound (st : List Nat) (kw : Nat × Nat) : List Nat :=
  match st with
  | [a, b, c, d, e, f, g, h] =>
    let t1 := m32 (h + bigSigma1 e + shaCh e f g + kw.1 + kw.2)
    let t2 := m32 (bigSigma0 a + shaMaj a b c)
    [m32 (t1 + t2), a, b, c, m32 (d + t1), e, f, g]
  | other => other

def shaBlock (h : List Nat) (block : List Nat) : List Nat :=
  let w := (shaSchedRev (bytesToWords block).reverse 48).reverse
  let st := (shaK.zip w).foldl shaRound h
  (h.zip st).map (fun p => m32 (p.1 + p.2))

def chunks64 (l : List Nat) : List (List Nat) :=
  if l.isEmpty then [] else l.take 64 :: chunks64 (l.drop 64)
termination_by l.length
decreasing_by
  simp only [List.length_drop]
  cases l
  · simp at *
  · simp only [List.length_cons]; omega

def sha256Words (msg : List Nat) : List Nat :=
  (chunks64 (shaPad msg)).foldl shaBlock shaH0

def wordHex (w : Nat) : List Char :=
  [hexDigitLower (w / 268435456), hexDigitLower (w / 16777216), hexDigitLower (w / 1048576),
   hexDigitLower (w / 65536), hexDigitLower (w / 4096), hexDigitLower (w / 256),
   hexDigitLower (w / 16), hexDigitLower w]

/-- `hashlib.sha256(s.encode("utf-8")).hexdigest()`. -/
def sha256hex (s : String) : String :=
  String.mk ((sha256Words (utf8Encode s)).flatMap wordHex)

/-! ### `json.dumps(..., separators=(",", ":"))`

The router serialises with compact separators and the default
`ensure_ascii=True`, so every character outside printable ASCII is written
as a `\uXXXX` escape (a surrogate pair beyond the Basic Multilingual Plane). -/

def jsonHex4 (n : Nat) : List Char :=
  ['\\', 'u', hexDigitLower (n / 4096), hexDigitLower (n / 256),
   hexDigitLower (n / 16), hexDigitLower n]

def jsonEscChar (c : Char) : List Char :=
  if c = '"' then ['\\', '"']
  else if c = '\\' then ['\\', '\\']
  else if c = '\n' then ['\\', 'n']
  else if c = '\r' then ['\\', 'r']
  else if c = '\t' then ['\\', 't']
  else if c.toNat = 8 then ['\\', 'b']
  else if c.toNat = 12 then ['\\', 'f']
  else if 0x20 ≤ c.toNat ∧ c.toNat ≤ 0x7e then [c]
  else if c.toNat < 0x10000 then jsonHex4 c.toNat
  else jsonHex4 (0xD800 + (c.toNat - 0x10000) / 1024)
    ++ jsonHex4 (0xDC00 + (c.toNat - 0x10000) % 1024)

def dumpStrL (s : String) : List Char :=
  '"' :: (s.data.flatMap jsonEscChar ++ ['"'])

mutual
def dumpVal : JValue → List Char
  | .null => 'n' :: ['u', 'l', 'l']
  | .bool true => 't' :: ['r', 'u', 'e']
  | .bool false => 'f' :: ['a', 'l', 's', 'e']
  | .num n => intDigits n
  | .str s => dumpStrL s
  | .arr es => '[' :: (dumpElems es ++ [']'])
  | .obj fs => '{' :: (dumpFields fs ++ ['}'])
def dumpElems : List JValue → List Char
  | [] => []
  | [e] => dumpVal e
  | e :: rest => dumpVal e ++ ',' :: dumpElems rest
def dumpFields : Obj → List Char
  | [] => []
  | [(k, v)] => dumpStrL k ++ ':' :: dumpVal v
  | (k, v) :: rest => dumpStrL k ++ ':' :: (dumpVal v ++ ',' :: dumpFields rest)
end

/-- `json.dumps(v, separators=(",", ":"))`. -/
def json_dumps (v : JValue) : String := String.mk (dumpVal v)

/-! ### `json.loads` (strict decoder)

A fuel-indexed recursive-descent parser mirroring Python's strict JSON
decoder: the four whitespace characters, literal `null`/`true`/`false`,
strings with the eight short escapes and `\uXXXX` (combining surrogate
pairs), integers with no leading zeros, arrays, and objects with string keys
where a duplicate key keeps its first position and its last value. Inputs
Python reads as floats (a fraction, an exponent, `NaN`, `Infinity`) and
escapes denoting lone surrogates are outside the model and rejected. -/

def jsonWsChar (c : Char) : Bool := c = ' ' ∨ c = '\t' ∨ c = '\n' ∨ c = '\r'

def skipJWs : List Char → List Char
  | c :: cs => if jsonWsChar c then skipJWs cs else c :: cs
  | [] => []

def isDigitChar (c : Char) : Bool := '0' ≤ c ∧ c ≤ '9'

def parseHexDigit (c : Char) : Option Nat :=
  if '0' ≤ c ∧ c ≤ '9' then some (c.toNat - '0'.toNat)
  else if 'a' ≤ c ∧ c ≤ 'f' then some (c.toNat - 'a'.toNat + 10)
  else if 'A' ≤ c ∧ c ≤ 'F' then some (c.toNat - 'A'.toNat + 10)
  else none

def parseHex4 (a b c d : Char) : Option Nat :=
  match parseHexDigit a, parseHexDigit b, parseHexDigit c, parseHexDigit d with
  | some va, some vb, some vc, some vd => some (va * 4096 + vb * 256 + vc * 16 + vd)
  | _, _, _, _ => none

def jsonShortEsc : Char → Option Char
  | '"' => some '"'
  | '\\' => some '\\'
  | '/' => some '/'
  | 'b' => some (Char.ofNat 8)
  | 'f' => some (Char.ofNat 12)
  | 'n' => some '\n'
  | 'r' => some '\r'
  | 't' => some '\t'
  | _ => none

/-- Decoder for one backslash escape (input begins after the backslash):
the denoted character and the remaining input. A `\uXXXX` escape in the
high-surrogate range must be followed by a low-surrogate escape (CPython
would keep a lone surrogate, which a scalar-value string cannot carry). -/
def scanLowSur : List Char → Option (Nat × List Char)
  | x1 :: x2 :: a :: b :: c :: d :: r4 =>
    if x1 = '\\' ∧ x2 = 'u' then
      match parseHex4 a b c d with
      | some n2 => if 0xDC00 ≤ n2 ∧ n2 ≤ 0xDFFF then some (n2, r4) else none
      | none => none
    else none
  | _ => none

def scanEsc : List Char → Option (Char × List Char)
  | [] => none
  | e :: r2 =>
    if e = 'u' then
      match r2 with
      | a :: b :: c2 :: d :: r3 =>
        (match parseHex4 a b c2 d with
         | some n =>
           if 0xD800 ≤ n ∧ n ≤ 0xDBFF then
             (match scanLowSur r3 with
              | some (n2, r4) =>
                some (Char.ofNat (0x10000 + (n - 0xD800) * 1024 + (n2 - 0xDC00)), r4)
              | none => none)
           else if 0xDC00 ≤ n ∧ n ≤ 0xDFFF then none
           else some (Char.ofNat n, r3)
         | none => none)
      | _ => none
    else (jsonShortEsc e).map (fun ch => (ch, r2))

/-- String body parser (after the opening quote). The fuel only bounds the
recursion depth; every step consumes at least one input character, so the
`input length + 1` the call sites pass can never run out. -/
def parseStrAux : Nat → List Char → List Char → Option (List Char × List Char)
  | 0, _, _ => none
  | _ + 1, _, [] => none
  | fuel + 1, acc, c :: rest =>
    if c = '"' then some (acc.reverse, rest)
    else if c = '\\' then
      match scanEsc rest with
      | some (ch, r2) => parseStrAux fuel (ch :: acc) r2
      | none => none
    else if c.toNat < 0x20 then none
    else parseStrAux fuel (c :: acc) rest

def takeDigitRun : List Char → List Char × List Char
  | c :: cs =>
    if isDigitChar c then
      let p := takeDigitRun cs
      (c :: p.1, p.2)
    else ([], c :: cs)
  | [] => ([], [])

def digitsVal (ds : List Char) : Nat :=
  ds.foldl (fun acc c => acc * 10 + (c.toNat - '0'.toNat)) 0

/-- The integer part of Python's number grammar: `0`, or a nonzero digit
followed by a digit run (so no leading zeros). -/
def parseIntPart : List Char → Option (Nat × List Char)
  | '0' :: rest => some (0, rest)
  | c :: rest =>
    if isDigitChar c then
      let p := takeDigitRun rest
      some (digitsVal (c :: p.1), p.2)
    else none
  | [] => none

def expFollows : List Char → Bool
  | [] => false
  | c :: r =>
    if c = '+' ∨ c = '-' then
      match r with
      | d :: _ => isDigitChar d
      | [] => false
    else isDigitChar c

/-- Does a fraction or an exponent follow, making the number a float? -/
def floatFollows : List Char → Bool
  | [] => false
  | c :: r =>
    if c = '.' then
      match r with
      | d :: _ => isDigitChar d
      | [] => false
    else if c = 'e' ∨ c = 'E' then expFollows r
    else false

def parseJNumCore (neg : Bool) (cs : List Char) : Option (Int × List Char) :=
  match parseIntPart cs with
  | none => none
  | some (n, r) =>
    if floatFollows r then none
    else some ((if neg then -(n : Int) else (n : Int)), r)

def parseJNum : List Char → Option (Int × List Char)
  | '-' :: r => parseJNumCore true r
  | cs => parseJNumCore false cs

/-- Python `dict` insertion: a repeated key keeps its first position and
takes the later value. -/
def dictInsert (d : Obj) (k : String) (v : JValue) : Obj :=
  if d.any (fun p => p.1 = k) then d.map (fun p => if p.1 = k then (k, v) else p)
  else d ++ [(k, v)]

def buildDict (pairs : Obj) : Obj := pairs.foldl (fun d p => dictInsert d p.1 p.2) []

mutual
def parseJVal (fuel : Nat) (cs : List Char) : Option (JValue × List Char) :=
  match fuel with
  | 0 => none
  | fuel + 1 =>
    match skipJWs cs with
    | [] => none
    | c :: r =>
      if c = 'n' then
        match r with
        | u :: l1 :: l2 :: r2 =>
          if u = 'u' ∧ l1 = 'l' ∧ l2 = 'l' then some (.null, r2) else none
        | _ => none
      else if c = 't' then
        match r with
        | u :: l1 :: l2 :: r2 =>
          if u = 'r' ∧ l1 = 'u' ∧ l2 = 'e' then some (.bool true, r2) else none
        | _ => none
      else if c = 'f' then
        match r with
        | u :: l1 :: l2 :: l3 :: r2 =>
          if u = 'a' ∧ l1 = 'l' ∧ l2 = 's' ∧ l3 = 'e' then some (.bool false, r2) else none
        | _ => none
      else if c = '"' then
        (parseStrAux (r.length + 1) [] r).map (fun p => (.str (String.mk p.1), p.2))
      else if c = '[' then
        match skipJWs r with
        | [] => none
        | c2 :: r2 =>
          if c2 = ']' then some (.arr [], r2)
          else (parseJElems fuel (c2 :: r2)).map (fun p => (.arr p.1, p.2))
      else if c = '{' then
        match skipJWs r with
        | [] => none
        | c2 :: r2 =>
          if c2 = '}' then some (.obj [], r2)
          else (parseJMembers fuel (c2 :: r2)).map (fun p => (.obj (buildDict p.1), p.2))
      else if c = '-' ∨ isDigitChar c then
        (parseJNum (c :: r)).map (fun p => (.num p.1, p.2))
      else none
def parseJElems (fuel : Nat) (cs : List Char) : Option (List JValue × List Char) :=
  match fuel with
  | 0 => none
  | fuel + 1 =>
    match parseJVal fuel cs with
    | none => none
    | some (v, r) =>
      match skipJWs r with
      | [] => none
      | c2 :: r2 =>
        if c2 = ',' then (parseJElems fuel r2).map (fun p => (v :: p.1, p.2))
        else if c2 = ']' then some ([v], r2)
        else none
def parseJMembers (fuel : Nat) (cs : List Char) : Option (Obj × List Char) :=
  match fuel with
  | 0 => none
  | fuel + 1 =>
    match skipJWs cs with
    | [] => none
    | c :: r =>
      if c = '"' then
        match parseStrAux (r.length + 1) [] r with
        | none => none
        | some (kcs, r1) =>
          match skipJWs r1 with
          | [] => none
          | c2 :: r2 =>
            if c2 = ':' then
              match parseJVal fuel r2 with
              | none => none
              | some (v, r3) =>
                match skipJWs r3 with
                | [] => none
                | c3 :: r4 =>
                  if c3 = ',' then
                    (parseJMembers fuel r4).map (fun p => ((String.mk kcs, v) :: p.1, p.2))
                  else if c3 = '}' then some ([(String.mk kcs, v)], r4)
                  else none
            else none
      else none
end

/-- `json.loads(s)`: parse a whole document, allowing surrounding whitespace. -/
def json_loads (s : String) : Option JValue :=
  match parseJVal (s.data.length + 1) s.data with
  | some (v, r) => if (skipJWs r).isEmpty then some v else none
  | none => none

/-! ### Round trip of the JSON codec: groundwork -/

theorem char_scalar (c : Char) : c.toNat < 55296 ∨ (57343 < c.toNat ∧ c.toNat < 1114112) :=
  c.valid

theorem digitChar_spec (k : Nat) (h : k < 10) :
    (digitChar k).toNat - '0'.toNat = k ∧ isDigitChar (digitChar k) = true := by
  interval_cases k <;> exact ⟨by decide, by decide⟩

theorem digitChar_ne_zero (k : Nat) (h1 : 1 ≤ k) (h9 : k ≤ 9) : digitChar k ≠ '0' := by
  interval_cases k <;> decide

theorem natDigits_eq (n : Nat) :
    natDigits n = if n < 10 then [digitChar n] else natDigits (n / 10) ++ [digitChar (n % 10)] := by
  rw [natDigits]

theorem natDigits_ne_nil (n : Nat) : natDigits n ≠ [] := by
  rw [natDigits_eq]
  split <;> simp

theorem natDigits_digits (n : Nat) : ∀ c ∈ natDigits n, isDigitChar c = true := by
  induction n using Nat.strong_induction_on with
  | _ n ih =>
    rw [natDigits_eq]
    intro c hc
    by_cases h : n < 10
    · rw [if_pos h] at hc
      rw [List.mem_singleton] at hc
      subst hc
      exact (digitChar_spec n h).2
    · rw [if_neg h, List.mem_append] at hc
      rcases hc with hc | hc
      · exact ih (n / 10) (Nat.div_lt_self (by omega) (by omega)) c hc
      · rw [List.mem_singleton] at hc
        subst hc
        exact (digitChar_spec (n % 10) (Nat.mod_lt _ (by omega))).2

theorem natDigits_head_ne_zero (n : Nat) (hn : n ≠ 0) :
    ∃ c t, natDigits n = c :: t ∧ isDigitChar c = true ∧ c ≠ '0' := by
  induction n using Nat.strong_induction_on with
  | _ n ih =>
    rw [natDigits_eq]
    by_cases h : n < 10
    · rw [if_pos h]
      exact ⟨digitChar n, [], rfl, (digitChar_spec n h).2,
        digitChar_ne_zero n (by omega) (by omega)⟩
    · rw [if_neg h]
      obtain ⟨c, t, hct, hd, hz⟩ :=
        ih (n / 10) (Nat.div_lt_self (by omega) (by omega)) (by omega)
      exact ⟨c, t ++ [digitChar (n % 10)], by rw [hct]; rfl, hd, hz⟩

theorem digitsVal_snoc (ds : List Char) (c : Char) :
    digitsVal (ds ++ [c]) = digitsVal ds * 10 + (c.toNat - '0'.toNat) := by
  simp [digitsVal]

theorem digitsVal_natDigits (n : Nat) : digitsVal (natDigits n) = n := by
  induction n using Nat.strong_induction_on with
  | _ n ih =>
    rw [natDigits_eq]
    by_cases h : n < 10
    · rw [if_pos h]
      have := (digitChar_spec n h).1
      simpa [digitsVal] using this
    · rw [if_neg h, digitsVal_snoc, ih (n / 10) (Nat.div_lt_self (by omega) (by omega))]
      have := (digitChar_spec (n % 10) (Nat.mod_lt _ (by omega))).1
      omega

theorem takeDigitRun_stop (cs : List Char)
    (h : cs = [] ∨ ∃ c t, cs = c :: t ∧ isDigitChar c = false) :
    takeDigitRun cs = ([], cs) := by
  rcases h with rfl | ⟨c, t, rfl, hc⟩
  · rfl
  · simp [takeDigitRun, hc]

theorem takeDigitRun_append (ds : List Char) (hds : ∀ c ∈ ds, isDigitChar c = true)
    (rest : List Char) (hrest : takeDigitRun rest = ([], rest)) :
    takeDigitRun (ds ++ rest) = (ds, rest) := by
  induction ds with
  | nil => simpa using hrest
  | cons c t ih =>
    have hc : isDigitChar c = true := hds c (by simp)
    have ht := ih (fun x hx => hds x (by simp [hx]))
    simp [takeDigitRun, hc, ht]

theorem digit_ne_minus {c : Char} (h : isDigitChar c = true) : c ≠ '-' := by
  intro hc
  subst hc
  exact absurd h (by decide)

theorem natDigits_cons (n : Nat) :
    ∃ c t, natDigits n = c :: t ∧ isDigitChar c = true := by
  rcases hn : natDigits n with _ | ⟨c, t⟩
  · exact absurd hn (natDigits_ne_nil n)
  · exact ⟨c, t, rfl, natDigits_digits n c (hn ▸ List.mem_cons_self ..)⟩

theorem parseIntPart_natDigits (n : Nat) (rest : List Char)
    (hrest : takeDigitRun rest = ([], rest)) :
    parseIntPart (natDigits n ++ rest) = some (n, rest) := by
  by_cases h0 : n = 0
  · subst h0
    have h : natDigits 0 = ['0'] := by rw [natDigits_eq]; decide
    rw [h]
    rfl
  · obtain ⟨c, t, hct, hd, hz⟩ := natDigits_head_ne_zero n h0
    have hts : ∀ x ∈ t, isDigitChar x = true := fun x hx =>
      natDigits_digits n x (hct ▸ List.mem_cons_of_mem c hx)
    have htr : takeDigitRun (t ++ rest) = (t, rest) := takeDigitRun_append t hts rest hrest
    have hdv : digitsVal (c :: t) = n := hct ▸ digitsVal_natDigits n
    rw [hct, List.cons_append]
    simp [parseIntPart, hz, hd, htr, hdv]

theorem parseJNum_cons_ne {c : Char} (hc : c ≠ '-') (t : List Char) :
    parseJNum (c :: t) = parseJNumCore false (c :: t) := by
  rw [parseJNum.eq_def]
  split
  · rename_i heq
    rw [List.cons.injEq] at heq
    exact absurd heq.1 hc
  · rfl

theorem parseJNum_intDigits (i : Int) (rest : List Char)
    (hstop : takeDigitRun rest = ([], rest)) (hfl : floatFollows rest = false) :
    parseJNum (intDigits i ++ rest) = some (i, rest) := by
  by_cases hneg : i < 0
  · have harg : intDigits i ++ rest = '-' :: (natDigits i.natAbs ++ rest) := by
      simp [intDigits, hneg]
    have hi : -((i.natAbs : Nat) : Int) = i := by omega
    rw [harg]
    show parseJNumCore true (natDigits i.natAbs ++ rest) = some (i, rest)
    rw [parseJNumCore, parseIntPart_natDigits i.natAbs rest hstop]
    simp only [hfl, hi]
    rfl
  · obtain ⟨c, t, hct, hd⟩ := natDigits_cons i.natAbs
    have hm := digit_ne_minus hd
    have harg : intDigits i ++ rest = c :: (t ++ rest) := by
      simp [intDigits, hneg, hct]
    have hip : parseIntPart (c :: (t ++ rest)) = some (i.natAbs, rest) := by
      rw [← List.cons_append, ← hct]
      exact parseIntPart_natDigits i.natAbs rest hstop
    have hi : ((i.natAbs : Nat) : Int) = i := by omega
    rw [harg, parseJNum_cons_ne hm, parseJNumCore, hip]
    simp only [hfl, hi]
    rfl

theorem hexDigitLower_mod (x : Nat) : hexDigitLower (x % 16) = hexDigitLower x := by
  simp only [hexDigitLower, Nat.mod_mod_of_dvd x (dvd_refl 16)]

theorem parseHexDigit_hexDigitLower (x : Nat) :
    parseHexDigit (hexDigitLower x) = some (x % 16) := by
  rw [← hexDigitLower_mod]
  have h : x % 16 < 16 := Nat.mod_lt _ (by omega)
  generalize x % 16 = d at h ⊢
  interval_cases d <;> decide

theorem parseHex4_jsonHex4 (n : Nat) (h : n < 65536) :
    parseHex4 (hexDigitLower (n / 4096)) (hexDigitLower (n / 256)) (hexDigitLower (n / 16))
      (hexDigitLower n) = some n := by
  simp only [parseHex4, parseHexDigit_hexDigitLower, Option.some.injEq]
  omega

theorem scanLowSur_hex (m : Nat) (h1 : 0xDC00 ≤ m) (h2 : m ≤ 0xDFFF) (rest : List Char) :
    scanLowSur ('\\' :: 'u' :: hexDigitLower (m / 4096) :: hexDigitLower (m / 256)
      :: hexDigitLower (m / 16) :: hexDigitLower m :: rest) = some (m, rest) := by
  rw [scanLowSur.eq_def]
  simp [parseHex4_jsonHex4 m (by omega), h1, h2]

/-- One definitional step of `scanEsc` on a `\u` escape. -/
theorem scanEsc_u_step (a b c2 d : Char) (r3 : List Char) :
    scanEsc ('u' :: a :: b :: c2 :: d :: r3)
      = match parseHex4 a b c2 d with
        | some n =>
          if 0xD800 ≤ n ∧ n ≤ 0xDBFF then
            (match scanLowSur r3 with
             | some (n2, r4) =>
               some (Char.ofNat (0x10000 + (n - 0xD800) * 1024 + (n2 - 0xDC00)), r4)
             | none => none)
          else if 0xDC00 ≤ n ∧ n ≤ 0xDFFF then none
          else some (Char.ofNat n, r3)
        | none => none := rfl

/-- A `\uXXXX` escape of a non-surrogate scalar decodes through `scanEsc`. -/
theorem scanEsc_u (n : Nat) (h : n < 65536) (hs1 : ¬ (0xD800 ≤ n ∧ n ≤ 0xDBFF))
    (hs2 : ¬ (0xDC00 ≤ n ∧ n ≤ 0xDFFF)) (rest : List Char) :
    scanEsc ('u' :: hexDigitLower (n / 4096) :: hexDigitLower (n / 256)
      :: hexDigitLower (n / 16) :: hexDigitLower n :: rest) = some (Char.ofNat n, rest) := by
  rw [scanEsc_u_step, parseHex4_jsonHex4 n h]
  simp [hs1, hs2]

/-- A surrogate-pair escape decodes through `scanEsc` to the astral scalar. -/
theorem scanEsc_pair (t : Nat) (hlow : 65536 ≤ t) (hmax : t < 1114112) (rest : List Char) :
    scanEsc ('u' :: hexDigitLower ((0xD800 + (t - 0x10000) / 1024) / 4096)
      :: hexDigitLower ((0xD800 + (t - 0x10000) / 1024) / 256)
      :: hexDigitLower ((0xD800 + (t - 0x10000) / 1024) / 16)
      :: hexDigitLower (0xD800 + (t - 0x10000) / 1024)
      :: '\\' :: 'u' :: hexDigitLower ((0xDC00 + (t - 0x10000) % 1024) / 4096)
      :: hexDigitLower ((0xDC00 + (t - 0x10000) % 1024) / 256)
      :: hexDigitLower ((0xDC00 + (t - 0x10000) % 1024) / 16)
      :: hexDigitLower (0xDC00 + (t - 0x10000) % 1024) :: rest)
      = some (Char.ofNat t, rest) := by
  have hmod : (t - 0x10000) % 1024 < 1024 := Nat.mod_lt _ (by omega)
  have hdiv : (t - 0x10000) / 1024 < 1024 := by omega
  have hhi : 0xD800 ≤ 0xD800 + (t - 0x10000) / 1024
      ∧ 0xD800 + (t - 0x10000) / 1024 ≤ 0xDBFF := by omega
  rw [scanEsc_u_step, parseHex4_jsonHex4 (0xD800 + (t - 0x10000) / 1024) (by omega),
    scanLowSur_hex (0xDC00 + (t - 0x10000) % 1024) (by omega) (by omega) rest]
  simp [hhi]
  rw [show 65536 + (t - 65536) / 1024 * 1024 + (t - 65536) % 1024 = t from by omega]

/-- One definitional step of the string parser at a backslash. -/
theorem parseStrAux_bs (f : Nat) (acc tail : List Char) :
    parseStrAux (f + 1) acc ('\\' :: tail)
      = match scanEsc tail with
        | some (ch, r2) => parseStrAux f (ch :: acc) r2
        | none => none := rfl

/-- Parsing one escaped character undoes `jsonEscChar`, for one unit of fuel. -/
theorem parseStrAux_esc (c : Char) (f : Nat) (acc rest : List Char) :
    parseStrAux (f + 1) acc (jsonEscChar c ++ rest) = parseStrAux f (c :: acc) rest := by
  by_cases h1 : c = '"'
  · subst h1; rfl
  by_cases h2 : c = '\\'
  · subst h2; rfl
  by_cases h3 : c = '\n'
  · subst h3; rfl
  by_cases h4 : c = '\r'
  · subst h4; rfl
  by_cases h5 : c = '\t'
  · subst h5; rfl
  by_cases h6 : c.toNat = 8
  · have hc : c = Char.ofNat 8 := by rw [← Char.ofNat_toNat c, h6]
    subst hc; rfl
  by_cases h7 : c.toNat = 12
  · have hc : c = Char.ofNat 12 := by rw [← Char.ofNat_toNat c, h7]
    subst hc; rfl
  by_cases h8 : 0x20 ≤ c.toNat ∧ c.toNat ≤ 0x7e
  · have hesc : jsonEscChar c = [c] := by
      simp only [jsonEscChar, if_neg h1, if_neg h2, if_neg h3, if_neg h4, if_neg h5,
        if_neg h6, if_neg h7, if_pos h8]
    have hlt : ¬ c.toNat < 0x20 := by omega
    rw [hesc, List.cons_append, List.nil_append]
    simp only [parseStrAux]
    rw [if_neg h1, if_neg h2, if_neg hlt]
  by_cases h9 : c.toNat < 0x10000
  · have hesc : jsonEscChar c = jsonHex4 c.toNat := by
      simp only [jsonEscChar, if_neg h1, if_neg h2, if_neg h3, if_neg h4, if_neg h5,
        if_neg h6, if_neg h7, if_neg h8, if_pos h9]
    have hs1 : ¬ (0xD800 ≤ c.toNat ∧ c.toNat ≤ 0xDBFF) := by
      rcases char_scalar c with h | h <;> omega
    have hs2 : ¬ (0xDC00 ≤ c.toNat ∧ c.toNat ≤ 0xDFFF) := by
      rcases char_scalar c with h | h <;> omega
    rw [hesc]
    simp only [jsonHex4, List.cons_append, List.nil_append]
    rw [parseStrAux_bs, scanEsc_u c.toNat h9 hs1 hs2 rest, Char.ofNat_toNat]
  · have hesc : jsonEscChar c
        = jsonHex4 (0xD800 + (c.toNat - 0x10000) / 1024)
          ++ jsonHex4 (0xDC00 + (c.toNat - 0x10000) % 1024) := by
      simp only [jsonEscChar, if_neg h1, if_neg h2, if_neg h3, if_neg h4, if_neg h5,
        if_neg h6, if_neg h7, if_neg h8, if_neg h9]
    have hmax : c.toNat < 1114112 := by
      rcases char_scalar c with h | h
      · omega
      · exact h.2
    rw [hesc]
    simp only [jsonHex4, List.cons_append, List.append_assoc, List.nil_append]
    rw [parseStrAux_bs, scanEsc_pair c.toNat (by omega) hmax rest, Char.ofNat_toNat]

/-- Parsing an escaped run stops exactly at the closing quote. -/
theorem parseStrAux_flatMap :
    ∀ (cs : List Char) (k : Nat) (acc rest : List Char),
      parseStrAux (cs.length + (k + 1)) acc (cs.flatMap jsonEscChar ++ '"' :: rest)
        = some (acc.reverse ++ cs, rest)
  | [], k, acc, rest => by simp [parseStrAux]
  | c :: cs, k, acc, rest => by
    have hlen : (c :: cs).length + (k + 1) = (cs.length + (k + 1)) + 1 := by
      simp only [List.length_cons]
      omega
    rw [hlen, List.flatMap_cons, List.append_assoc, parseStrAux_esc,
      parseStrAux_flatMap cs k _ rest]
    simp

/-- Every character escape is at least one character long. -/
theorem jsonEscChar_ne_nil (c : Char) : jsonEscChar c ≠ [] := by
  by_cases h1 : c = '"'
  · subst h1; decide
  by_cases h2 : c = '\\'
  · subst h2; decide
  by_cases h3 : c = '\n'
  · subst h3; decide
  by_cases h4 : c = '\r'
  · subst h4; decide
  by_cases h5 : c = '\t'
  · subst h5; decide
  by_cases h6 : c.toNat = 8
  · have hc : c = Char.ofNat 8 := by rw [← Char.ofNat_toNat c, h6]
    subst hc; decide
  by_cases h7 : c.toNat = 12
  · have hc : c = Char.ofNat 12 := by rw [← Char.ofNat_toNat c, h7]
    subst hc; decide
  by_cases h8 : 0x20 ≤ c.toNat ∧ c.toNat ≤ 0x7e
  · simp only [jsonEscChar, if_neg h1, if_neg h2, if_neg h3, if_neg h4, if_neg h5,
      if_neg h6, if_neg h7, if_pos h8]
    simp
  by_cases h9 : c.toNat < 0x10000
  · simp only [jsonEscChar, if_neg h1, if_neg h2, if_neg h3, if_neg h4, if_neg h5,
      if_neg h6, if_neg h7, if_neg h8, if_pos h9, jsonHex4]
    simp
  · simp only [jsonEscChar, if_neg h1, if_neg h2, if_neg h3, if_neg h4, if_neg h5,
      if_neg h6, if_neg h7, if_neg h8, if_neg h9, jsonHex4]
    simp

theorem length_le_flatMap_esc (cs : List Char) :
    cs.length ≤ (cs.flatMap jsonEscChar).length := by
  induction cs with
  | nil => simp
  | cons c t ih =>
    rw [List.flatMap_cons, List.length_append, List.length_cons]
    have h := jsonEscChar_ne_nil c
    have h1 : 1 ≤ (jsonEscChar c).length := by
      cases hc : jsonEscChar c
      · exact absurd hc h
      · simp
    omega

/-- The string codec round-trip, at the fuel the parser call sites supply. -/
theorem parseStr_dump (s : String) (rest : List Char) :
    parseStrAux ((s.data.flatMap jsonEscChar ++ '"' :: rest).length + 1) []
      (s.data.flatMap jsonEscChar ++ '"' :: rest) = some (s.data, rest) := by
  have hle := length_le_flatMap_esc s.data
  have hlen : (s.data.flatMap jsonEscChar ++ '"' :: rest).length + 1
      = s.data.length + (((s.data.flatMap jsonEscChar).length - s.data.length
        + rest.length + 1) + 1) := by
    rw [List.length_append, List.length_cons]
    omega
  rw [hlen, parseStrAux_flatMap]
  simp

/-! ### Well-formed values and the dictionary lemma

A parsed object never carries two bindings of the same key (Python
dictionaries collapse them), so the codec round-trip is stated for values
whose objects have pairwise distinct keys, at every level. -/

def keysNodupB : Obj → Bool
  | [] => true
  | (k, _) :: rest => !(rest.any (fun p => p.1 = k)) && keysNodupB rest

mutual
def jwf : JValue → Bool
  | .null => true
  | .bool _ => true
  | .num _ => true
  | .str _ => true
  | .arr es => jwfList es
  | .obj fs => keysNodupB fs && jwfFields fs
def jwfList : List JValue → Bool
  | [] => true
  | e :: es => jwf e && jwfList es
def jwfFields : Obj → Bool
  | [] => true
  | (_, v) :: fs => jwf v && jwfFields fs
end

theorem dictInsert_notmem (d : Obj) (k : String) (v : JValue)
    (h : d.any (fun p => p.1 = k) = false) : dictInsert d k v = d ++ [(k, v)] := by
  simp only [dictInsert, h]
  simp

theorem buildDict_go (ms : Obj) : ∀ d : Obj,
    (∀ p ∈ ms, d.any (fun q => q.1 = p.1) = false) → keysNodupB ms = true →
    ms.foldl (fun d p => dictInsert d p.1 p.2) d = d ++ ms := by
  induction ms with
  | nil => intro d _ _; simp
  | cons kv rest ih =>
    obtain ⟨k, v⟩ := kv
    intro d hd hn
    simp only [keysNodupB, Bool.and_eq_true, Bool.not_eq_true'] at hn
    obtain ⟨hk, hn⟩ := hn
    simp only [List.foldl_cons]
    rw [dictInsert_notmem d k v (hd (k, v) (by simp))]
    rw [ih (d ++ [(k, v)]) ?hall hn]
    · simp
    case hall =>
      intro p hp
      have h1 := hd p (by simp [hp])
      have h2 : ¬ p.1 = k := by
        intro he
        rw [List.any_eq_false] at hk
        exact hk p hp (by simp [he])
      simp [List.any_append, h1, h2]
      intro he
      exact absurd he.symm h2

/-- Building a Python dictionary from distinct-keyed pairs keeps them as-is. -/
theorem buildDict_eq (ms : Obj) (h : keysNodupB ms = true) : buildDict ms = ms := by
  have hb := buildDict_go ms [] (by simp) h
  simpa [buildDict] using hb

/-! ### Heads and delimiters of dumped output -/

/-- A continuation that can follow a dumped value inside a document:
empty, or a separator/closer. -/
def jsonDelim : List Char → Bool
  | [] => true
  | c :: _ => c = ',' ∨ c = ']' ∨ c = '}'

theorem jsonDelim_stop {rest : List Char} (h : jsonDelim rest = true) :
    takeDigitRun rest = ([], rest) := by
  match rest with
  | [] => rfl
  | c :: t =>
    apply takeDigitRun_stop
    refine Or.inr ⟨c, t, rfl, ?_⟩
    simp only [jsonDelim, decide_eq_true_eq] at h
    rcases h with rfl | rfl | rfl <;> decide

theorem jsonDelim_nofloat {rest : List Char} (h : jsonDelim rest = true) :
    floatFollows rest = false := by
  match rest with
  | [] => rfl
  | c :: t =>
    simp only [jsonDelim, decide_eq_true_eq] at h
    rw [floatFollows.eq_def]
    rcases h with rfl | rfl | rfl <;> simp

theorem skipJWs_cons {c : Char} (t : List Char) (h : jsonWsChar c = false) :
    skipJWs (c :: t) = c :: t := by
  simp [skipJWs, h]

theorem digit_head_facts {c : Char} (h : isDigitChar c = true) :
    c ≠ 'n' ∧ c ≠ 't' ∧ c ≠ 'f' ∧ c ≠ '"' ∧ c ≠ '[' ∧ c ≠ '{'
      ∧ jsonWsChar c = false ∧ c ≠ ']' := by
  refine ⟨?_, ?_, ?_, ?_, ?_, ?_, ?_, ?_⟩
  · intro hc; subst hc; exact absurd h (by decide)
  · intro hc; subst hc; exact absurd h (by decide)
  · intro hc; subst hc; exact absurd h (by decide)
  · intro hc; subst hc; exact absurd h (by decide)
  · intro hc; subst hc; exact absurd h (by decide)
  · intro hc; subst hc; exact absurd h (by decide)
  · simp only [jsonWsChar, decide_eq_false_iff_not]
    rintro (rfl | rfl | rfl | rfl) <;> exact absurd h (by decide)
  · intro hc; subst hc; exact absurd h (by decide)

/-- Every dumped value begins with a character that is no whitespace and
closes no array. -/
theorem dumpVal_head (v : JValue) :
    ∃ c t, dumpVal v = c :: t ∧ jsonWsChar c = false ∧ c ≠ ']' := by
  cases v with
  | null => exact ⟨'n', _, rfl, by decide, by decide⟩
  | bool b =>
    cases b with
    | true => exact ⟨'t', _, rfl, by decide, by decide⟩
    | false => exact ⟨'f', _, rfl, by decide, by decide⟩
  | str s => exact ⟨'"', _, rfl, by decide, by decide⟩
  | arr es => exact ⟨'[', _, rfl, by decide, by decide⟩
  | obj fs => exact ⟨'{', _, rfl, by decide, by decide⟩
  | num i =>
    by_cases hm : i < 0
    · refine ⟨'-', natDigits i.natAbs, ?_, by decide, by decide⟩
      simp [dumpVal, intDigits, hm]
    · obtain ⟨c, t, hct, hd⟩ := natDigits_cons i.natAbs
      obtain ⟨-, -, -, -, -, -, hws, hbr⟩ := digit_head_facts hd
      refine ⟨c, t, ?_, hws, hbr⟩
      simp [dumpVal, intDigits, hm, hct]

/-- `skipJWs` is the identity on dumped output. -/
theorem skipJWs_dump (v : JValue) (x : List Char) :
    skipJWs (dumpVal v ++ x) = dumpVal v ++ x := by
  obtain ⟨c, t, hct, hws, -⟩ := dumpVal_head v
  rw [hct, List.cons_append]
  exact skipJWs_cons _ hws

theorem rtNull (f : Nat) (rest : List Char) :
    parseJVal (f + 1) (dumpVal .null ++ rest) = some (.null, rest) := by
  rw [parseJVal.eq_def]
  simp [skipJWs, jsonWsChar]

theorem rtBool (b : Bool) (f : Nat) (rest : List Char) :
    parseJVal (f + 1) (dumpVal (.bool b) ++ rest) = some (.bool b, rest) := by
  cases b <;> (rw [parseJVal.eq_def]; simp [skipJWs, jsonWsChar])

theorem rtStr (s : String) (f : Nat) (rest : List Char) :
    parseJVal (f + 1) (dumpVal (.str s) ++ rest) = some (.str s, rest) := by
  have harg : dumpVal (.str s) ++ rest
      = '"' :: (s.data.flatMap jsonEscChar ++ '"' :: rest) := by
    simp [dumpVal, dumpStrL]
  rw [harg, parseJVal.eq_def]
  simp only [skipJWs_cons _ (by decide : jsonWsChar '"' = false)]
  simp only [parseStr_dump s rest]
  simp

theorem rtNum (i : Int) (f : Nat) (rest : List Char) (hdelim : jsonDelim rest = true) :
    parseJVal (f + 1) (dumpVal (.num i) ++ rest) = some (.num i, rest) := by
  have hnum := parseJNum_intDigits i rest (jsonDelim_stop hdelim) (jsonDelim_nofloat hdelim)
  by_cases hm : i < 0
  · have harg : dumpVal (.num i) ++ rest = '-' :: (natDigits i.natAbs ++ rest) := by
      simp [dumpVal, intDigits, hm]
    have hback : '-' :: (natDigits i.natAbs ++ rest) = intDigits i ++ rest := by
      simp [intDigits, hm]
    rw [harg, parseJVal.eq_def]
    simp only [skipJWs_cons _ (by decide : jsonWsChar '-' = false)]
    simp only [show ¬ ('-' : Char) = 'n' from by decide, show ¬ ('-' : Char) = 't' from by decide,
      show ¬ ('-' : Char) = 'f' from by decide, show ¬ ('-' : Char) = '"' from by decide,
      show ¬ ('-' : Char) = '[' from by decide, show ¬ ('-' : Char) = '{' from by decide,
      if_neg, if_pos, Or.inl (rfl : ('-' : Char) = '-')]
    rw [hback, hnum]
    simp
  · obtain ⟨c, t, hct, hd⟩ := natDigits_cons i.natAbs
    obtain ⟨hn, ht, hf, hq, hbk, hbc, hws, -⟩ := digit_head_facts hd
    have harg : dumpVal (.num i) ++ rest = c :: (t ++ rest) := by
      simp [dumpVal, intDigits, hm, hct]
    have hback : c :: (t ++ rest) = intDigits i ++ rest := by
      simp [intDigits, hm, hct]
    rw [harg, parseJVal.eq_def]
    simp only [skipJWs_cons _ hws]
    simp only [if_neg hn, if_neg ht, if_neg hf, if_neg hq, if_neg hbk, if_neg hbc,
      if_pos (Or.inr hd)]
    rw [hback, hnum]
    simp

theorem rtArrNil (f : Nat) (rest : List Char) :
    parseJVal (f + 1) (dumpVal (.arr []) ++ rest) = some (.arr [], rest) := by
  have harg : dumpVal (.arr []) ++ rest = '[' :: (']' :: rest) := by
    simp [dumpVal, dumpElems]
  rw [harg, parseJVal.eq_def]
  simp [skipJWs, jsonWsChar]

theorem rtObjNil (f : Nat) (rest : List Char) :
    parseJVal (f + 1) (dumpVal (.obj []) ++ rest) = some (.obj [], rest) := by
  have harg : dumpVal (.obj []) ++ rest = '{' :: ('}' :: rest) := by
    simp [dumpVal, dumpFields]
  rw [harg, parseJVal.eq_def]
  simp [skipJWs, jsonWsChar]

theorem dumpElems_head (e : JValue) (es : List JValue) :
    ∃ t2, dumpElems (e :: es) = dumpVal e ++ t2 := by
  cases es with
  | nil => exact ⟨[], by simp [dumpElems]⟩
  | cons x xs => exact ⟨',' :: dumpElems (x :: xs), rfl⟩

theorem parseJVal_arr_step (f : Nat) (e : JValue) (es : List JValue) (rest : List Char) :
    parseJVal (f + 1) (dumpVal (.arr (e :: es)) ++ rest)
      = (parseJElems f (dumpElems (e :: es) ++ ']' :: rest)).map (fun p => (.arr p.1, p.2)) := by
  have harg : dumpVal (.arr (e :: es)) ++ rest
      = '[' :: (dumpElems (e :: es) ++ ']' :: rest) := by
    simp [dumpVal]
  obtain ⟨c, t, hct, hws, hbr⟩ := dumpVal_head e
  obtain ⟨t2, ht2⟩ := dumpElems_head e es
  have hshape : dumpElems (e :: es) ++ ']' :: rest = c :: (t ++ (t2 ++ ']' :: rest)) := by
    rw [ht2, hct]
    simp
  have hskip : skipJWs (dumpElems (e :: es) ++ ']' :: rest)
      = dumpElems (e :: es) ++ ']' :: rest := by
    rw [hshape]
    exact skipJWs_cons _ hws
  rw [harg, parseJVal.eq_def]
  simp only [skipJWs_cons _ (by decide : jsonWsChar '[' = false)]
  simp only [show ¬ ('[' : Char) = 'n' from by decide, show ¬ ('[' : Char) = 't' from by decide,
    show ¬ ('[' : Char) = 'f' from by decide, show ¬ ('[' : Char) = '"' from by decide,
    if_neg, if_pos, hskip]
  rw [hshape]
  simp only [show (('[' : Char) = '[') = True from by simp, if_true]
  rw [if_neg hbr, ← hshape]
  simp

theorem parseJVal_obj_step (f : Nat) (k : String) (v : JValue) (ms : Obj) (rest : List Char) :
    parseJVal (f + 1) (dumpVal (.obj ((k, v) :: ms)) ++ rest)
      = (parseJMembers f (dumpFields ((k, v) :: ms) ++ '}' :: rest)).map
          (fun p => (.obj (buildDict p.1), p.2)) := by
  have harg : dumpVal (.obj ((k, v) :: ms)) ++ rest
      = '{' :: (dumpFields ((k, v) :: ms) ++ '}' :: rest) := by
    simp [dumpVal]
  have hfields : ∃ t2, dumpFields ((k, v) :: ms) = '"' :: t2 := by
    cases ms with
    | nil => exact ⟨k.data.flatMap jsonEscChar ++ '"' :: (':' :: dumpVal v), by
        simp [dumpFields, dumpStrL]⟩
    | cons kv2 ms2 =>
      obtain ⟨k2, v2⟩ := kv2
      exact ⟨k.data.flatMap jsonEscChar ++ '"'
          :: (':' :: (dumpVal v ++ ',' :: dumpFields ((k2, v2) :: ms2))), by
        simp [dumpFields, dumpStrL]⟩
  obtain ⟨t2, ht2⟩ := hfields
  have hshape : dumpFields ((k, v) :: ms) ++ '}' :: rest = '"' :: (t2 ++ '}' :: rest) := by
    rw [ht2]
    simp
  have hskip : skipJWs (dumpFields ((k, v) :: ms) ++ '}' :: rest)
      = dumpFields ((k, v) :: ms) ++ '}' :: rest := by
    rw [hshape]
    exact skipJWs_cons _ (by decide)
  rw [harg, parseJVal.eq_def]
  simp only [skipJWs_cons _ (by decide : jsonWsChar '{' = false)]
  simp only [show ¬ ('{' : Char) = 'n' from by decide, show ¬ ('{' : Char) = 't' from by decide,
    show ¬ ('{' : Char) = 'f' from by decide, show ¬ ('{' : Char) = '"' from by decide,
    show ¬ ('{' : Char) = '[' from by decide, if_neg, if_pos, hskip]
  rw [hshape]
  simp only [show (('{' : Char) = '{') = True from by simp, if_true]
  rw [if_neg (by decide : ¬ ('"' : Char) = '}'), ← hshape]
  simp

mutual
theorem rtVal : ∀ (v : JValue) (f : Nat) (rest : List Char),
    jwf v = true → (dumpVal v).length < f → jsonDelim rest = true →
    parseJVal f (dumpVal v ++ rest) = some (v, rest)
  | .null, f, rest, _, hf, _ => by
    cases f with
    | zero => exact absurd hf (by omega)
    | succ f => exact rtNull f rest
  | .bool b, f, rest, _, hf, _ => by
    cases f with
    | zero => exact absurd hf (by omega)
    | succ f => exact rtBool b f rest
  | .num i, f, rest, _, hf, hdel => by
    cases f with
    | zero => exact absurd hf (by omega)
    | succ f => exact rtNum i f rest hdel
  | .str s, f, rest, _, hf, _ => by
    cases f with
    | zero => exact absurd hf (by omega)
    | succ f => exact rtStr s f rest
  | .arr [], f, rest, _, hf, _ => by
    cases f with
    | zero => exact absurd hf (by omega)
    | succ f => exact rtArrNil f rest
  | .arr (e :: es), f, rest, hwf, hf, hdel => by
    cases f with
    | zero => exact absurd hf (by omega)
    | succ f =>
      have hwl : jwfList (e :: es) = true := by simpa [jwf] using hwf
      have hlen : (dumpElems (e :: es)).length + 1 < f := by
        simp only [dumpVal, List.length_cons, List.length_append] at hf
        simp at hf
        omega
      rw [parseJVal_arr_step f e es rest, rtElems e es f rest hwl hlen]
      rfl
  | .obj [], f, rest, _, hf, _ => by
    cases f with
    | zero => exact absurd hf (by omega)
    | succ f => exact rtObjNil f rest
  | .obj ((k, v) :: ms), f, rest, hwf, hf, hdel => by
    cases f with
    | zero => exact absurd hf (by omega)
    | succ f =>
      have h1 : keysNodupB ((k, v) :: ms) = true ∧ jwfFields ((k, v) :: ms) = true := by
        simpa [jwf, Bool.and_eq_true] using hwf
      have hlen : (dumpFields ((k, v) :: ms)).length + 1 < f := by
        simp only [dumpVal, List.length_cons, List.length_append] at hf
        simp at hf
        omega
      rw [parseJVal_obj_step f k v ms rest, rtMembers (k, v) ms f rest h1.2 hlen]
      simp [buildDict_eq _ h1.1]
termination_by v _ _ _ _ _ => sizeOf v
theorem rtElems : ∀ (e : JValue) (es : List JValue) (f : Nat) (rest : List Char),
    jwfList (e :: es) = true → (dumpElems (e :: es)).length + 1 < f →
    parseJElems f (dumpElems (e :: es) ++ ']' :: rest) = some (e :: es, rest)
  | e, [], f, rest, hwl, hf => by
    cases f with
    | zero => exact absurd hf (by omega)
    | succ f =>
      have hwf : jwf e = true := by simpa [jwfList] using hwl
      have hfe : (dumpVal e).length < f := by
        simp only [dumpElems] at hf
        omega
      have hv := rtVal e f (']' :: rest) hwf hfe (by simp [jsonDelim])
      have harg : dumpElems [e] ++ ']' :: rest = dumpVal e ++ ']' :: rest := by
        simp [dumpElems]
      rw [parseJElems.eq_def, harg]
      simp only [hv]
      rw [skipJWs_cons _ (by decide : jsonWsChar ']' = false)]
      simp
  | e, x :: xs, f, rest, hwl, hf => by
    cases f with
    | zero => exact absurd hf (by omega)
    | succ f =>
      have hw2 : jwf e = true ∧ jwfList (x :: xs) = true := by
        simpa [jwfList, Bool.and_eq_true] using hwl
      have hlens : (dumpElems (e :: x :: xs)).length
          = (dumpVal e).length + 1 + (dumpElems (x :: xs)).length := by
        simp [dumpElems]
        omega
      have hfe : (dumpVal e).length < f := by omega
      have hfx : (dumpElems (x :: xs)).length + 1 < f := by omega
      have hv := rtVal e f (',' :: (dumpElems (x :: xs) ++ ']' :: rest)) hw2.1 hfe
        (by simp [jsonDelim])
      have key := rtElems x xs f rest hw2.2 hfx
      have harg : dumpElems (e :: x :: xs) ++ ']' :: rest
          = dumpVal e ++ (',' :: (dumpElems (x :: xs) ++ ']' :: rest)) := by
        simp [dumpElems]
      rw [parseJElems.eq_def, harg]
      simp only [hv]
      rw [skipJWs_cons _ (by decide : jsonWsChar ',' = false)]
      simp only [show ((',' : Char) = ',') = True from by simp, if_true, key]
      rfl
termination_by e es _ _ _ _ => sizeOf e + sizeOf es
theorem rtMembers : ∀ (kv : String × JValue) (ms : Obj) (f : Nat) (rest : List Char),
    jwfFields (kv :: ms) = true → (dumpFields (kv :: ms)).length + 1 < f →
    parseJMembers f (dumpFields (kv :: ms) ++ '}' :: rest) = some (kv :: ms, rest)
  | (k, v), [], f, rest, hw, hf => by
    cases f with
    | zero => exact absurd hf (by omega)
    | succ f =>
      have hwf : jwf v = true := by simpa [jwfFields] using hw
      have hfv : (dumpVal v).length < f := by
        simp only [dumpFields, dumpStrL, List.length_append, List.length_cons] at hf
        omega
      have hv := rtVal v f ('}' :: rest) hwf hfv (by simp [jsonDelim])
      have harg : dumpFields [(k, v)] ++ '}' :: rest
          = '"' :: (k.data.flatMap jsonEscChar ++ '"' :: (':' :: (dumpVal v ++ '}' :: rest))) := by
        simp [dumpFields, dumpStrL]
      rw [parseJMembers.eq_def, harg]
      rw [skipJWs_cons _ (by decide : jsonWsChar '"' = false)]
      simp only [show (('"' : Char) = '"') = True from by simp, if_true]
      simp only [parseStr_dump k]
      rw [skipJWs_cons _ (by decide : jsonWsChar ':' = false)]
      simp only [show ((':' : Char) = ':') = True from by simp, if_true, hv]
      rw [skipJWs_cons _ (by decide : jsonWsChar '}' = false)]
      simp
  | (k, v), (k2, v2) :: ms, f, rest, hw, hf => by
    cases f with
    | zero => exact absurd hf (by omega)
    | succ f =>
      have hw2 : jwf v = true ∧ jwfFields ((k2, v2) :: ms) = true := by
        simpa [jwfFields, Bool.and_eq_true] using hw
      have hlens : (dumpFields ((k, v) :: (k2, v2) :: ms)).length
          = (dumpStrL k).length + 1 + (dumpVal v).length + 1
            + (dumpFields ((k2, v2) :: ms)).length := by
        simp [dumpFields]
        omega
      have hfv : (dumpVal v).length < f := by omega
      have hfx : (dumpFields ((k2, v2) :: ms)).length + 1 < f := by omega
      have hv := rtVal v f (',' :: (dumpFields ((k2, v2) :: ms) ++ '}' :: rest)) hw2.1 hfv
        (by simp [jsonDelim])
      have key := rtMembers (k2, v2) ms f rest hw2.2 hfx
      have harg : dumpFields ((k, v) :: (k2, v2) :: ms) ++ '}' :: rest
          = '"' :: (k.data.flatMap jsonEscChar ++ '"' :: (':' :: (dumpVal v
              ++ ',' :: (dumpFields ((k2, v2) :: ms) ++ '}' :: rest)))) := by
        simp [dumpFields, dumpStrL]
      rw [parseJMembers.eq_def, harg]
      rw [skipJWs_cons _ (by decide : jsonWsChar '"' = false)]
      simp only [show (('"' : Char) = '"') = True from by simp, if_true]
      simp only [parseStr_dump k]
      rw [skipJWs_cons _ (by decide : jsonWsChar ':' = false)]
      simp only [show ((':' : Char) = ':') = True from by simp, if_true, hv]
      rw [skipJWs_cons _ (by decide : jsonWsChar ',' = false)]
      simp only [show ((',' : Char) = ',') = True from by simp, if_true, key]
      rfl
termination_by kv ms _ _ _ _ => sizeOf kv + sizeOf ms
end

/-- The JSON codec round-trip: parsing a compactly dumped value recovers it,
for every value whose objects have distinct keys. -/
theorem json_loads_dumps (v : JValue) (h : jwf v = true) :
    json_loads (json_dumps v) = some v := by
  have hv := rtVal v ((dumpVal v).length + 1) [] h (by omega) (by simp [jsonDelim])
  rw [List.append_nil] at hv
  simp only [json_loads, json_dumps]
  rw [hv]
  simp [skipJWs]

/-! ### The router (`bridge/main.py`)

Topic names are the defaults of the environment lookups in the source; the
environment override mechanism itself carries no logic and is outside the
model. `now_iso()` is modelled as an explicit `now` parameter (the source
may call it several times per request; the model uses one instant, which no
claim distinguishes). Python exceptions are `Except.error`; a raised
exception escaping the handler is a `PushResult.crash` (HTTP 500 via the
framework). -/

def RESULTS_PRELIM_TOPIC : String := "results.prelim"
def RESULTS_FINAL_TOPIC : String := "results.final.v1"
def ORDERS_CREATED_TOPIC : String := "orders.created"
def MEDS_ORDERED_TOPIC : String := "meds.ordered"
def MEDS_ADMINISTERED_TOPIC : String := "meds.administered"
def PROCEDURES_PERFORMED_TOPIC : String := "procedures.performed"
def NOTES_CREATED_TOPIC : String := "notes.created"
def SCHED_CREATED_TOPIC : String := "scheduling.created"
def ED_TRIAGE_TOPIC : String := "ed.triage"
def ADT_ADMIT_TOPIC : String := "adt.admit"
def ADT_TRANSFER_TOPIC : String := "adt.transfer"
def ADT_DISCHARGE_TOPIC : String := "adt.discharge"
def RPM_OBS_CREATED_TOPIC : String := "rpm.observation.created"
def LOGIC_ID : String := "bridge.router.v4"

def topic_path (topic : String) (project_id : String) : String :=
  if topic.startsWith "projects/" then topic
  else "projects/" ++ project_id ++ "/topics/" ++ topic

/-- Substring test (`needle in hay` on Python strings). -/
def hasInfix : List Char → List Char → Bool
  | hay, pat =>
    if pat.isPrefixOf hay then true
    else
      match hay with
      | [] => false
      | _ :: t => hasInfix t pat

def strContains (hay pat : String) : Bool := hasInfix hay.data pat.data

/-- Python `x or {}`. -/
def orEmptyObj : Option JValue → JValue
  | some v => if pyTruthy v then v else .obj []
  | none => .obj []

/-- Python `.get(...)` applied to a value that must be a dictionary:
anything else raises `AttributeError`. -/
def asObj : JValue → Except String Obj
  | .obj o => .ok o
  | _ => .error "AttributeError: get on non-dict"

/-- Python `for x in (v or [])`: a falsy value iterates as empty, a list
iterates its items, anything else raises. -/
def iterOrEmpty : Option JValue → Except String (List JValue)
  | none => .ok []
  | some v =>
    if pyTruthy v then
      match v with
      | .arr l => .ok l
      | _ => .error "TypeError: not iterable"
    else .ok []

/-- Python `(v or "").lower()`: truthy non-strings raise. -/
def lowerOrEmpty : Option JValue → Except String String
  | none => .ok ""
  | some v =>
    if pyTruthy v then
      match v with
      | .str s => .ok (asciiLower s)
      | _ => .error "AttributeError: lower"
    else .ok ""

/-- Python `(v or "").upper()`. -/
def upperOrEmpty : Option JValue → Except String String
  | none => .ok ""
  | some v =>
    if pyTruthy v then
      match v with
      | .str s => .ok (asciiUpper s)
      | _ => .error "AttributeError: upper"
    else .ok ""

/-- The first truthy value of `subject` when it is a dictionary with a
string `reference` (`resource_patient_ref`, common case). -/
def subjRef (res : Obj) : Option String :=
  match orEmptyObj (pyGet res "subject") with
  | .obj s =>
    (match pyGet s "reference" with
     | some (.str r) => some r
     | _ => none)
  | _ => none

def apptRefLoop : List JValue → Except String (Option String)
  | [] => .ok none
  | p :: rest => do
    let po ← asObj p
    match orEmptyObj (pyGet po "actor") with
    | .obj ao =>
      (match pyGet ao "reference" with
       | some (.str r) =>
         if strContains r "Patient/" then .ok (some r) else apptRefLoop rest
       | _ => apptRefLoop rest)
    | _ => .error "AttributeError: actor.get"

def resource_patient_ref (res : Obj) : Except String (Option String) :=
  match subjRef res with
  | some r => .ok (some r)
  | none =>
    if pyGet res "resourceType" = some (.str "Appointment") then do
      let ps ← iterOrEmpty (pyGet res "participant")
      apptRefLoop ps
    else .ok none

/-- `res.get("meta", {}).get("lastUpdated")`. -/
def metaLU (res : Obj) : Except String (Option JValue) :=
  match pyGet res "meta" with
  | none => .ok none
  | some v =>
    match v with
    | .obj mo => .ok (pyGet mo "lastUpdated")
    | _ => .error "AttributeError: meta.get"

/-- Tail of an `a or b or meta-lastUpdated or now_iso()` chain: the
`lastUpdated` access only happens when the earlier links are falsy. -/
def luFallback (res : Obj) (xs : List (Option JValue)) (now : String) :
    Except String JValue :=
  match firstTruthy xs with
  | some v => .ok v
  | none => do
    let lu ← metaLU res
    match lu with
    | some v => if pyTruthy v then pure v else pure (.str now)
    | none => pure (.str now)

def mAdmPeriod (res : Obj) (now : String) : Except String JValue := do
  let period ← asObj (orEmptyObj (pyGet res "effectivePeriod"))
  luFallback res [pyGet period "start"] now

def procPeriod (res : Obj) (now : String) : Except String JValue := do
  let pp ← asObj (orEmptyObj (pyGet res "performedPeriod"))
  luFallback res [pyGet pp "start"] now

/-- `occurred_at` of `bridge/main.py`: the resource-type-specific timestamp
fallback chains. The result is the Python value the chain produces (a
string in every well-formed resource). -/
def occurred_at (res : Obj) (now : String) : Except String JValue :=
  let rt := pyGet res "resourceType"
  if rt = some (.str "Observation") then
    luFallback res [pyGet res "effectiveDateTime", pyGet res "issued"] now
  else if rt = some (.str "ServiceRequest") then
    luFallback res [pyGet res "authoredOn"] now
  else if rt = some (.str "MedicationRequest") then
    luFallback res [pyGet res "authoredOn"] now
  else if rt = some (.str "MedicationAdministration") then
    match pyGet res "effectiveDateTime" with
    | some eff => if pyTruthy eff then .ok eff else mAdmPeriod res now
    | none => mAdmPeriod res now
  else if rt = some (.str "Procedure") then
    match pyGet res "performedDateTime" with
    | some perf => if pyTruthy perf then .ok perf else procPeriod res now
    | none => procPeriod res now
  else if rt = some (.str "DocumentReference") then
    luFallback res [pyGet res "date"] now
  else if rt = some (.str "Appointment") then
    luFallback res [pyGet res "start"] now
  else if rt = some (.str "Encounter") then do
    let per ← asObj (orEmptyObj (pyGet res "period"))
    luFallback res [pyGet per "start"] now
  else
    luFallback res [] now

structure Envelope where
  event_id : String
  topic : String
  occurred_at : JValue
  published_at : String
  patient_ref : Option String
  resource_type : JValue
  resource_id : JValue
  resource : String
  source_system : String
  logic_id : String
  inputs_span : String
deriving Repr, DecidableEq

/-- `build_envelope` of `bridge/main.py`. The provenance sub-dictionary is
flattened into the structure (`trace` is the constant `None` and elided). -/
def build_envelope (topic : String) (res : Obj) (now : String) : Except String Envelope := do
  let rid := pyGetD res "id" (.str "no-id")
  let rtype := pyGetD res "resourceType" (.str "Unknown")
  let occ ← occurred_at res now
  let pref ← resource_patient_ref res
  pure {
    event_id := sha256hex (pyStr rtype ++ ":" ++ pyStr rid ++ ":" ++ pyStr occ),
    topic := topic,
    occurred_at := occ,
    published_at := now,
    patient_ref := pref,
    resource_type := rtype,
    resource_id := rid,
    resource := json_dumps (.obj res),
    source_system := "gcp.fhir.changes",
    logic_id := LOGIC_ID,
    inputs_span := "[" ++ pyStr occ ++ "," ++ now ++ "]" }

/-! ### Classification (`choose_topic_for_*`) -/

def statusLower (res : Obj) : Except String String := lowerOrEmpty (pyGet res "status")

/-- The coding systems recognised for Observation categories (verbatim from
the source: the comparison is against the lower-cased system, so the
mixed-case second entry can never match). -/
def CAT_SYSTEMS : List String :=
  ["http://terminology.hl7.org/codesystem/observation-category",
   "http://terminology.hl7.org/CodeSystem/observation-category",
   "http://hl7.org/fhir/observation-category"]

def catCodesOfCoding : List JValue → Except String (List String)
  | [] => .ok []
  | c :: rest => do
    let co ← asObj c
    let sys ← lowerOrEmpty (pyGet co "system")
    if CAT_SYSTEMS.contains sys then do
      let code ← lowerOrEmpty (pyGet co "code")
      let tail ← catCodesOfCoding rest
      if code ≠ "" then pure (code :: tail) else pure tail
    else
      catCodesOfCoding rest

def catCodesList : List JValue → Except String (List String)
  | [] => .ok []
  | cat :: rest => do
    let co ← asObj cat
    let coding ← iterOrEmpty (pyGet co "coding")
    let here ← catCodesOfCoding coding
    let tail ← catCodesList rest
    pure (here ++ tail)

/-- The category codes collected by `choose_topic_for_observation`
(lines 141-152 of the source). -/
def catCodes (res : Obj) : Except String (List String) := do
  let cats ← iterOrEmpty (pyGet res "category")
  catCodesList cats

def pairsOf : List JValue → Except String (List (Option JValue × Option JValue))
  | [] => .ok []
  | c :: rest => do
    let co ← asObj c
    let tail ← pairsOf rest
    pure ((pyGet co "system", pyGet co "code") :: tail)

/-- The `(system, code)` pairs of the Observation's `code.coding`
(line 158 of the source). -/
def codingPairs (res : Obj) : Except String (List (Option JValue × Option JValue)) := do
  let codeObj ← asObj (pyGetD res "code" (.obj []))
  let coding ← iterOrEmpty (pyGet codeObj "coding")
  pairsOf coding

/-- The vital-signs LOINC allow-list `VITALS`: SpO2, heart rate,
respiratory rate, temperature, systolic and diastolic blood pressure,
height, weight, BMI. -/
def VITALS : List (String × String) :=
  [("http://loinc.org", "59408-5"), ("http://loinc.org", "8867-4"),
   ("http://loinc.org", "9279-1"), ("http://loinc.org", "8310-5"),
   ("http://loinc.org", "8480-6"), ("http://loinc.org", "8462-4"),
   ("http://loinc.org", "8302-2"), ("http://loinc.org", "29463-7"),
   ("http://loinc.org", "39156-5")]

/-- `codes & VITALS != {}` of the source. -/
def hitsVitals (pairs : List (Option JValue × Option JValue)) : Bool :=
  pairs.any (fun p => VITALS.any (fun q => p.1 = some (.str q.1) ∧ p.2 = some (.str q.2)))

def choose_topic_for_observation (res : Obj) (action : Option JValue) :
    Except String (Option String) := do
  let status ← statusLower res
  let cats ← catCodes res
  let is_lab := cats.contains "laboratory"
  let is_vitals := cats.contains "vital-signs"
  let codes ← codingPairs res
  if is_lab then
    pure (some (if status = "final" then RESULTS_FINAL_TOPIC else RESULTS_PRELIM_TOPIC))
  else if is_vitals || hitsVitals codes then
    pure (some RPM_OBS_CREATED_TOPIC)
  else
    pure none

/-- `((res.get("class") or {}).get("code") or "").upper()`. -/
def encClass (res : Obj) : Except String String := do
  let clsObj ← asObj (orEmptyObj (pyGet res "class"))
  upperOrEmpty (pyGet clsObj "code")

def choose_topic_for_encounter (res : Obj) (action : Option JValue) :
    Except String (Option String) := do
  let status ← statusLower res
  let cls ← encClass res
  if cls = "EMER" then
    (if status = "arrived" then pure (some ED_TRIAGE_TOPIC) else pure none)
  else if cls = "IMP" then
    (if status = "in-progress" ∨ status = "arrived" then
      (if action = some (.str "UpdateResource") then pure (some ADT_TRANSFER_TOPIC)
       else pure (some ADT_ADMIT_TOPIC))
     else if status = "finished" ∨ status = "completed" then
       pure (some ADT_DISCHARGE_TOPIC)
     else pure none)
  else pure none

def choose_topic_for_appointment (res : Obj) (action : Option JValue) :
    Except String (Option String) := do
  let status ← statusLower res
  if action = some (.str "CreateResource") ∨ action = some (.str "UpdateResource")
      ∨ ["booked", "proposed", "pending", "arrived", "checked-in",
         "accepted"].contains status then
    pure (some SCHED_CREATED_TOPIC)
  else pure none

/-! ### Coercion helpers -/

/-- The value universe `_coerce_resource` dispatches on: a dictionary, a
byte string, a text string, or any other object (carried as its `str()`
text, which is all the function uses of it). -/
inductive PyVal where
  | dict (kvs : Obj)
  | bytes (bs : List Nat)
  | str (s : String)
  | other (str_repr : String)
deriving Repr, DecidableEq

def _coerce_resource : PyVal → JValue
  | .dict kvs => .obj kvs
  | .bytes bs =>
    (match utf8Decode bs with
     | some s =>
       (match json_loads s with
        | some v => v
        | none => .obj [("raw", .str (utf8DecodeIgnore bs))])
     | none => .obj [("raw", .str (utf8DecodeIgnore bs))])
  | .str v =>
    let s := pyStrip v
    if s ≠ "" ∧ (s.data.head? = some '{' ∨ s.data.head? = some '[') then
      (match json_loads s with
       | some j => j
       | none => .obj [("raw", .str s)])
    else .obj [("raw", .str s)]
  | .other r => .obj [("raw", .str r)]

/-- JSON-decoded values as the Python objects `_coerce_resource` receives
from the push handler (never bytes there). -/
def pyToPyVal : JValue → PyVal
  | .obj kvs => .dict kvs
  | .str s => .str s
  | v => .other (pyStr v)

def _looks_like_envelope (o : Obj) : Bool :=
  pyHasKey o "event_id" && pyHasKey o "topic" && pyHasKey o "resource_type"
    && pyHasKey o "resource" && pyHasKey o "provenance"

/-! ### The `/pubsub/push` handler

The two network calls are oracles: `fetch` models
`fetch_fhir_resource_by_name` (`none` = any raised exception), `pub` models
`PUBLISHER.publish(...).result()` (`none` = failure). Their uses are
recorded as effects. The JSON response bodies are abstracted to the HTTP
code, the `status` field, and (on success) `published_to`/`messageId`; the
free-text `reason` diagnostics are not modelled. An exception the handler
does not catch is `crash` (the framework's HTTP 500). -/

inductive Effect where
  | fetch (name : String)
  | publish (path : String) (env : Envelope)
deriving Repr, DecidableEq

inductive PushResult where
  | resp (code : Nat) (status : String) (published_to : Option String)
      (messageId : Option String)
  | crash (msg : String)
deriving Repr, DecidableEq

/-- Base64-then-JSON decoding of the wrapper's `data` field; `none` is the
`except` branch (a non-string `data` raises inside the same `try`). -/
def decodePushData : JValue → Option JValue
  | .str s =>
    (match b64decode s with
     | some bs =>
       (match utf8Decode bs with
        | some t => json_loads t
        | none => none)
     | none => none)
  | _ => none

def payloadAction : JValue → Option JValue
  | .obj po => pyGet po "action"
  | _ => none

/-- Lines 284-315 of the handler: resource-type gate, routing table,
envelope build, publish. -/
def route_resource (res : JValue) (action : Option JValue) (project_id : String)
    (pub : String → Envelope → Option String) (now : String) (effs : List Effect) :
    PushResult × List Effect :=
  match res with
  | .obj ro =>
    let rtype := pyGet ro "resourceType"
    if (match rtype with | some v => pyTruthy v | none => false) = false then
      (.resp 200 "ignored" none none, effs)
    else
      let topicE : Except String (Option String) :=
        if rtype = some (.str "Observation") then choose_topic_for_observation ro action
        else if rtype = some (.str "ServiceRequest") then .ok (some ORDERS_CREATED_TOPIC)
        else if rtype = some (.str "MedicationRequest") then .ok (some MEDS_ORDERED_TOPIC)
        else if rtype = some (.str "MedicationAdministration") then
          .ok (some MEDS_ADMINISTERED_TOPIC)
        else if rtype = some (.str "Procedure") then .ok (some PROCEDURES_PERFORMED_TOPIC)
        else if rtype = some (.str "DocumentReference") then .ok (some NOTES_CREATED_TOPIC)
        else if rtype = some (.str "Appointment") then choose_topic_for_appointment ro action
        else if rtype = some (.str "Encounter") then choose_topic_for_encounter ro action
        else .ok none
      match topicE with
      | .error e => (.crash e, effs)
      | .ok none => (.resp 200 "ignored" none none, effs)
      | .ok (some topic) =>
        match build_envelope topic ro now with
        | .error e => (.crash e, effs)
        | .ok env =>
          (match pub (topic_path topic project_id) env with
           | some mid =>
             (.resp 200 "ok" (some topic) (some mid),
              effs ++ [.publish (topic_path topic project_id) env])
           | none =>
             (.resp 500 "error" none none,
              effs ++ [.publish (topic_path topic project_id) env]))
  | _ => (.crash "AttributeError: res.get", effs)

/-- Lines 269-315 of the handler: everything after the wrapper decode,
applied to the delivery attributes and the decoded payload. -/
def route_payload (attrs : JValue) (payload : JValue) (projectEnv : Option String)
    (adcProject : String) (fetch : String → Option JValue)
    (pub : String → Envelope → Option String) (now : String) :
    PushResult × List Effect :=
  if (match payload with | .obj p => _looks_like_envelope p | _ => false) then
    (.resp 200 "skipped" none none, [])
  else
    let project_id := match projectEnv with | some p => p | none => adcProject
    match attrs with
    | .obj ao =>
      let action : Option JValue :=
        match pyGet ao "action" with
        | some v => if pyTruthy v then some v else payloadAction payload
        | none => payloadAction payload
      (match payload with
       | .obj po =>
         if pyHasKey po "name" then
           match pyGet po "name" with
           | some (.str nm) =>
             (match fetch nm with
              | some r => route_resource r action project_id pub now [.fetch nm]
              | none => (.resp 500 "error" none none, [.fetch nm]))
           | _ => (.resp 500 "error" none none, [])
         else
           route_resource (_coerce_resource (pyToPyVal (pyGetD po "resource" (.obj po))))
             action project_id pub now []
       | _ => (.crash "AttributeError: payload.get", []))
    | _ => (.crash "AttributeError: attrs.get", [])

/-- The `/pubsub/push` endpoint. `body` is the parsed request JSON (`none`
when `request.json()` raises, the 400 "invalid json" path). -/
def pubsub_push (body : Option JValue) (projectEnv : Option String) (adcProject : String)
    (fetch : String → Option JValue) (pub : String → Envelope → Option String)
    (now : String) : PushResult × List Effect :=
  match body with
  | none => (.resp 400 "error" none none, [])
  | some b =>
    match b with
    | .obj bo =>
      (match pyGet bo "message" with
       | some (.obj mo) =>
         if ¬ pyHasKey mo "data" then (.resp 400 "error" none none, [])
         else
           (match pyGet mo "data" with
            | some d =>
              (match decodePushData d with
               | some payload =>
                 route_payload (orEmptyObj (pyGet mo "attributes")) payload projectEnv
                   adcProject fetch pub now
               | none => (.resp 400 "error" none none, []))
            | none => (.resp 400 "error" none none, []))
       | _ => route_payload (.obj []) b projectEnv adcProject fetch pub now)
    | _ => route_payload (.obj []) b projectEnv adcProject fetch pub now

/-! ### Claim support: shared inversion lemma for `build_envelope` -/

theorem build_envelope_fields (topic now : String) (res : Obj) (e : Envelope)
    (h : build_envelope topic res now = Except.ok e) :
    ∃ occ pref, occurred_at res now = Except.ok occ
      ∧ resource_patient_ref res = Except.ok pref
      ∧ e = { event_id := sha256hex (pyStr (pyGetD res "resourceType" (.str "Unknown"))
                ++ ":" ++ pyStr (pyGetD res "id" (.str "no-id")) ++ ":" ++ pyStr occ),
              topic := topic, occurred_at := occ, published_at := now,
              patient_ref := pref,
              resource_type := pyGetD res "resourceType" (.str "Unknown"),
              resource_id := pyGetD res "id" (.str "no-id"),
              resource := json_dumps (.obj res),
              source_system := "gcp.fhir.changes", logic_id := LOGIC_ID,
              inputs_span := "[" ++ pyStr occ ++ "," ++ now ++ "]" } := by
  unfold build_envelope at h
  cases hocc : occurred_at res now with
  | error m => rw [hocc] at h; exact absurd h (by simp [Bind.bind, Except.bind])
  | ok occ =>
    rw [hocc] at h
    cases hpr : resource_patient_ref res with
    | error m => rw [hpr] at h; exact absurd h (by simp [Bind.bind, Except.bind])
    | ok pref =>
      rw [hpr] at h
      refine ⟨occ, pref, rfl, rfl, ?_⟩
      simp only [Bind.bind, Except.bind, pure, Except.pure] at h
      exact (Except.ok.injEq _ _ ▸ h).symm

/-! ### Claim C1 -/

/-- An in-progress inpatient Encounter, as the router receives it. -/
def encAdmitRes : Obj :=
  [("resourceType", .str "Encounter"), ("id", .str "e1"),
   ("status", .str "in-progress"), ("class", .obj [("code", .str "IMP")]),
   ("period", .obj [("start", .str "2025-01-01T00:00:00Z")])]

/-- The same Encounter with a different `status`. -/
def encArrivedRes : Obj :=
  [("resourceType", .str "Encounter"), ("id", .str "e1"),
   ("status", .str "arrived"), ("class", .obj [("code", .str "IMP")]),
   ("period", .obj [("start", .str "2025-01-01T00:00:00Z")])]

/-- Claim C1 is refuted on concrete inputs: `build_envelope` produces the
same `event_id` for the same resource under two different topics, and for
two resources that differ in `status` alone — the topic and the status are
not inputs to the hash. -/
theorem C1_counterexample :
    ((build_envelope "adt.admit" encAdmitRes "NOW").map Envelope.event_id
        = (build_envelope "adt.transfer" encAdmitRes "NOW").map Envelope.event_id
      ∧ "adt.admit" ≠ "adt.transfer")
    ∧ ((build_envelope "adt.admit" encAdmitRes "NOW").map Envelope.event_id
        = (build_envelope "adt.admit" encArrivedRes "NOW").map Envelope.event_id
      ∧ pyGet encAdmitRes "status" ≠ pyGet encArrivedRes "status") :=
  ⟨⟨rfl, by decide⟩, ⟨rfl, by decide⟩⟩

/-- Claim C1 as amended: the `event_id` of every built envelope is the
SHA-256 hex digest of `rtype:rid:occ` — the resource type (`"Unknown"` when
absent), the resource id (`"no-id"` when absent) and the occurrence
timestamp, colon-separated. The topic and the resource's status are not
part of the hash input, and identical triples give identical digests. -/
theorem C1_event_id_formula (topic now : String) (res : Obj) (e : Envelope) (occ : JValue)
    (h : build_envelope topic res now = Except.ok e)
    (hocc : occurred_at res now = Except.ok occ) :
    e.event_id = sha256hex (pyStr (pyGetD res "resourceType" (.str "Unknown"))
      ++ ":" ++ pyStr (pyGetD res "id" (.str "no-id")) ++ ":" ++ pyStr occ) := by
  obtain ⟨occ', pref, hocc', hpr, he⟩ := build_envelope_fields topic now res e h
  rw [hocc] at hocc'
  cases hocc'
  rw [he]

/-- The C1 formula applied to a concrete Encounter. -/
theorem C1_event_id_formula_witness :
    ∃ e, build_envelope "adt.admit" encAdmitRes "NOW" = Except.ok e
      ∧ e.event_id = sha256hex (pyStr (pyGetD encAdmitRes "resourceType" (.str "Unknown"))
          ++ ":" ++ pyStr (pyGetD encAdmitRes "id" (.str "no-id"))
          ++ ":" ++ pyStr (.str "2025-01-01T00:00:00Z")) :=
  ⟨_, rfl, C1_event_id_formula "adt.admit" "NOW" encAdmitRes _ _ rfl rfl⟩

/-! ### Claim C2 -/

/-- An in-progress inpatient Encounter used to instantiate C2. -/
def encImpInProgress : Obj :=
  [("resourceType", .str "Encounter"), ("id", .str "e2"),
   ("status", .str "in-progress"), ("class", .obj [("code", .str "IMP")])]

/-- Claim C2: for every Encounter whose class code is `IMP` and whose
lower-cased status is `in-progress` or `arrived`, an `UpdateResource`
delivery action routes to the transfer topic and a `CreateResource` action
routes to the admit topic. -/
theorem C2_imp_update_vs_create (res : Obj) (st : String)
    (hc : encClass res = Except.ok "IMP") (hs : statusLower res = Except.ok st)
    (hst : st = "in-progress" ∨ st = "arrived") :
    choose_topic_for_encounter res (some (.str "UpdateResource"))
        = Except.ok (some ADT_TRANSFER_TOPIC)
    ∧ choose_topic_for_encounter res (some (.str "CreateResource"))
        = Except.ok (some ADT_ADMIT_TOPIC) := by
  constructor <;>
    (unfold choose_topic_for_encounter; rw [hs, hc]; rcases hst with h | h <;> (subst h; rfl))

/-- C2 applied to a concrete in-progress inpatient Encounter. -/
theorem C2_imp_update_vs_create_witness :
    encClass encImpInProgress = Except.ok "IMP"
    ∧ statusLower encImpInProgress = Except.ok "in-progress"
    ∧ choose_topic_for_encounter encImpInProgress (some (.str "UpdateResource"))
        = Except.ok (some ADT_TRANSFER_TOPIC)
    ∧ choose_topic_for_encounter encImpInProgress (some (.str "CreateResource"))
        = Except.ok (some ADT_ADMIT_TOPIC) :=
  ⟨rfl, rfl, C2_imp_update_vs_create encImpInProgress "in-progress" rfl rfl (Or.inl rfl)⟩

/-! ### Claim C3 -/

/-- A laboratory Observation whose raw status is the upper-case `"FINAL"`. -/
def obsLabUpperFinal : Obj :=
  [("resourceType", .str "Observation"), ("id", .str "o1"), ("status", .str "FINAL"),
   ("category", .arr [.obj [("coding", .arr [.obj
     [("system", .str "http://terminology.hl7.org/CodeSystem/observation-category"),
      ("code", .str "laboratory")]])]])]

/-- Claim C3 is refuted on a concrete input: a laboratory Observation whose
status field is `"FINAL"` — a value other than `"final"` — still routes to
the final-results topic, because the router lower-cases the status before
comparing. -/
theorem C3_counterexample :
    pyGet obsLabUpperFinal "status" = some (.str "FINAL")
    ∧ JValue.str "FINAL" ≠ JValue.str "final"
    ∧ catCodes obsLabUpperFinal = Except.ok ["laboratory"]
    ∧ choose_topic_for_observation obsLabUpperFinal none
        = Except.ok (some RESULTS_FINAL_TOPIC) :=
  ⟨rfl, by decide, rfl, rfl⟩

/-- Claim C3 as amended: for every Observation whose collected category
codes include `laboratory`, classification routes to the final-results
topic exactly when the lower-cased status equals `"final"`, and to the
preliminary-results topic otherwise. -/
theorem C3_lab_routing (res : Obj) (st : String) (cs : List String)
    (ps : List (Option JValue × Option JValue)) (a : Option JValue)
    (hs : statusLower res = Except.ok st) (hc : catCodes res = Except.ok cs)
    (hp : codingPairs res = Except.ok ps) (hl : cs.contains "laboratory" = true) :
    choose_topic_for_observation res a
      = Except.ok (some (if st = "final" then RESULTS_FINAL_TOPIC
          else RESULTS_PRELIM_TOPIC)) := by
  have hm : "laboratory" ∈ cs := by simpa using hl
  unfold choose_topic_for_observation
  rw [hs, hc, hp]
  simp [Bind.bind, Except.bind, hm, pure, Except.pure]

/-- A laboratory Observation with a preliminary status. -/
def obsLabPrelim : Obj :=
  [("resourceType", .str "Observation"), ("status", .str "preliminary"),
   ("category", .arr [.obj [("coding", .arr [.obj
     [("system", .str "http://hl7.org/fhir/observation-category"),
      ("code", .str "laboratory")]])]])]

/-- The C3 routing rule applied to a concrete preliminary lab Observation. -/
theorem C3_lab_routing_witness :
    statusLower obsLabPrelim = Except.ok "preliminary"
    ∧ catCodes obsLabPrelim = Except.ok ["laboratory"]
    ∧ codingPairs obsLabPrelim = Except.ok []
    ∧ choose_topic_for_observation obsLabPrelim none
        = Except.ok (some (if "preliminary" = "final" then RESULTS_FINAL_TOPIC
            else RESULTS_PRELIM_TOPIC)) :=
  ⟨rfl, rfl, rfl, C3_lab_routing obsLabPrelim "preliminary" ["laboratory"] [] none rfl rfl rfl rfl⟩

/-! ### Claim C4 -/

/-- A category-free Observation whose LOINC code 8867-4 (heart rate) is in
the vital-signs allow-list. -/
def obsHeartRate : Obj :=
  [("resourceType", .str "Observation"), ("status", .str "final"),
   ("code", .obj [("coding", .arr [.obj
     [("system", .str "http://loinc.org"), ("code", .str "8867-4")]])])]

/-- Claim C4: an Observation with no collected category codes whose
`code.coding` intersects the vital-signs LOINC allow-list routes to the
remote-monitoring topic; and whenever the category codes include
`laboratory`, the laboratory rule decides the topic — even if the code is
in the allow-list — so the category match takes precedence. -/
theorem C4_vitals_allowlist_precedence (res : Obj) (st : String) (cs : List String)
    (ps : List (Option JValue × Option JValue)) (a : Option JValue)
    (hs : statusLower res = Except.ok st) (hc : catCodes res = Except.ok cs)
    (hp : codingPairs res = Except.ok ps) :
    (cs = [] → hitsVitals ps = true →
      choose_topic_for_observation res a = Except.ok (some RPM_OBS_CREATED_TOPIC))
    ∧ (cs.contains "laboratory" = true →
      choose_topic_for_observation res a
        = Except.ok (some (if st = "final" then RESULTS_FINAL_TOPIC
            else RESULTS_PRELIM_TOPIC))) := by
  constructor
  · intro hnil hv
    subst hnil
    unfold choose_topic_for_observation
    rw [hs, hc, hp]
    simp [Bind.bind, Except.bind, pure, Except.pure, hv]
  · intro hl
    have hm : "laboratory" ∈ cs := by simpa using hl
    unfold choose_topic_for_observation
    rw [hs, hc, hp]
    simp [Bind.bind, Except.bind, pure, Except.pure, hm]

/-- C4 applied to a concrete heart-rate Observation with no category. -/
theorem C4_vitals_allowlist_precedence_witness :
    statusLower obsHeartRate = Except.ok "final"
    ∧ catCodes obsHeartRate = Except.ok []
    ∧ codingPairs obsHeartRate
        = Except.ok [(some (.str "http://loinc.org"), some (.str "8867-4"))]
    ∧ hitsVitals [(some (.str "http://loinc.org"), some (.str "8867-4"))] = true
    ∧ choose_topic_for_observation obsHeartRate none
        = Except.ok (some RPM_OBS_CREATED_TOPIC) :=
  ⟨rfl, rfl, rfl, rfl,
   (C4_vitals_allowlist_precedence obsHeartRate "final" []
     [(some (.str "http://loinc.org"), some (.str "8867-4"))] none rfl rfl rfl).1 rfl rfl⟩

/-! ### Claim C5 -/

/-- A finished emergency Encounter (class `EMER`). -/
def encEmerFinished : Obj :=
  [("resourceType", .str "Encounter"), ("status", .str "finished"),
   ("class", .obj [("code", .str "EMER")])]

/-- Claim C5 is refuted on a concrete input: a finished Encounter whose
class is `EMER` is not routed to the discharge topic — it is not routed at
all — because the discharge rule only fires inside the `IMP` class branch. -/
theorem C5_counterexample :
    statusLower encEmerFinished = Except.ok "finished"
    ∧ encClass encEmerFinished = Except.ok "EMER"
    ∧ choose_topic_for_encounter encEmerFinished none = Except.ok none
    ∧ some ADT_DISCHARGE_TOPIC ≠ (none : Option String) :=
  ⟨rfl, rfl, rfl, by simp⟩

/-- Claim C5 as amended: for every Encounter whose class code is `IMP` and
whose lower-cased status is `finished` or `completed`, classification
routes to the discharge topic, whatever the delivery action. -/
theorem C5_imp_discharge (res : Obj) (st : String) (a : Option JValue)
    (hc : encClass res = Except.ok "IMP") (hs : statusLower res = Except.ok st)
    (hst : st = "finished" ∨ st = "completed") :
    choose_topic_for_encounter res a = Except.ok (some ADT_DISCHARGE_TOPIC) := by
  unfold choose_topic_for_encounter
  rw [hs, hc]
  rcases hst with h | h <;> (subst h; rfl)

/-- A finished inpatient Encounter. -/
def encImpFinished : Obj :=
  [("resourceType", .str "Encounter"), ("status", .str "finished"),
   ("class", .obj [("code", .str "IMP")])]

/-- The C5 discharge rule applied to a concrete finished inpatient
Encounter. -/
theorem C5_imp_discharge_witness :
    encClass encImpFinished = Except.ok "IMP"
    ∧ statusLower encImpFinished = Except.ok "finished"
    ∧ choose_topic_for_encounter encImpFinished none
        = Except.ok (some ADT_DISCHARGE_TOPIC) :=
  ⟨rfl, rfl, C5_imp_discharge encImpFinished "finished" none rfl rfl (Or.inl rfl)⟩

/-! ### Claim C6 -/

/-- Claim C6 is refuted on concrete inputs: a push wrapper whose `data` is
not base64-encoded JSON is answered with HTTP 400 (a retryable error for
Pub/Sub, not an acknowledged no-op), and a body whose decoded payload is
not a dictionary makes the handler raise (HTTP 500). -/
theorem C6_counterexample :
    pubsub_push (some (.obj [("message", .obj [("data", .str "!!!")])])) (some "p") "adc"
        (fun _ => none) (fun _ _ => none) "NOW"
      = (PushResult.resp 400 "error" none none, [])
    ∧ pubsub_push (some (.arr [])) (some "p") "adc"
        (fun _ => none) (fun _ _ => none) "NOW"
      = (PushResult.crash "AttributeError: payload.get", []) :=
  ⟨rfl, rfl⟩

/-- Claim C6 as amended: a push wrapper whose `data` fails base64/JSON
decoding is rejected with HTTP 400 status "error" and no effects, while a
body that decodes to a dictionary carrying no locator (no `name`, no
`resource`, no `resourceType`, not an envelope) is acknowledged with
HTTP 200 status "ignored" and no effects. -/
theorem C6_push_outcomes (mo po : Obj) (d : JValue) (pe : Option String) (adc now : String)
    (f : String → Option JValue) (p : String → Envelope → Option String)
    (hd : pyGet mo "data" = some d) (hfail : decodePushData d = none)
    (hmsg : pyGet po "message" = none) (hne : _looks_like_envelope po = false)
    (hnm : pyGet po "name" = none) (hres : pyGet po "resource" = none)
    (hrt : pyGet po "resourceType" = none) :
    pubsub_push (some (.obj [("message", .obj mo)])) pe adc f p now
      = (PushResult.resp 400 "error" none none, [])
    ∧ pubsub_push (some (.obj po)) pe adc f p now
      = (PushResult.resp 200 "ignored" none none, []) := by
  constructor
  · unfold pubsub_push
    have hk : pyHasKey mo "data" = true := by unfold pyHasKey; rw [hd]
    simp [pyGet, hk, hd, hfail]
  · unfold pubsub_push
    simp only [hmsg]
    unfold route_payload
    have hk : pyHasKey po "name" = false := by unfold pyHasKey; rw [hnm]
    simp only [hne, Bool.false_eq_true, if_false, hk, pyGetD, hres, pyToPyVal, _coerce_resource]
    unfold route_resource
    simp [hrt]

/-- The C6 outcomes applied to a concrete bad wrapper and a concrete
locator-free dictionary payload. -/
theorem C6_push_outcomes_witness :
    pyGet [("data", JValue.str "!!!")] "data" = some (.str "!!!")
    ∧ decodePushData (.str "!!!") = none
    ∧ pyGet [("kind", JValue.str "note")] "message" = none
    ∧ _looks_like_envelope [("kind", JValue.str "note")] = false
    ∧ pubsub_push (some (.obj [("message", .obj [("data", .str "!!!")])])) none "adc"
        (fun _ => none) (fun _ _ => none) "T"
      = (PushResult.resp 400 "error" none none, [])
    ∧ pubsub_push (some (.obj [("kind", .str "note")])) none "adc"
        (fun _ => none) (fun _ _ => none) "T"
      = (PushResult.resp 200 "ignored" none none, []) :=
  ⟨rfl, rfl, rfl, rfl,
   C6_push_outcomes [("data", .str "!!!")] [("kind", .str "note")] (.str "!!!")
     none "adc" "T" (fun _ => none) (fun _ _ => none) rfl rfl rfl rfl rfl rfl rfl⟩

/-! ### Claim C7 -/

/-- A finished Encounter whose period has both a start and an end. -/
def encFinishedPeriod : Obj :=
  [("resourceType", .str "Encounter"), ("status", .str "finished"),
   ("period", .obj [("start", .str "2025-01-01T00:00:00Z"),
                    ("end", .str "2025-01-02T00:00:00Z")])]

/-- Claim C7 is refuted on a concrete input: for a finished Encounter with
both `period.start` and `period.end` present, the derived occurrence
timestamp is `period.start`, not `period.end` — the status is never
consulted and `period.end` is never read. -/
theorem C7_counterexample :
    pyGet encFinishedPeriod "status" = some (.str "finished")
    ∧ pyGet encFinishedPeriod "period"
        = some (.obj [("start", .str "2025-01-01T00:00:00Z"),
                      ("end", .str "2025-01-02T00:00:00Z")])
    ∧ occurred_at encFinishedPeriod "NOW" = Except.ok (.str "2025-01-01T00:00:00Z")
    ∧ JValue.str "2025-01-01T00:00:00Z" ≠ JValue.str "2025-01-02T00:00:00Z" :=
  ⟨rfl, rfl, rfl, by decide⟩

/-- Claim C7 as amended: for every Encounter whose `period` field yields a
dictionary `per`, the occurrence timestamp is the chain
`per.start or meta.lastUpdated or now` — `period.end` and the status play
no part; in particular a truthy `per.start` is always the answer. -/
theorem C7_encounter_occurred_at (res per : Obj) (now : String)
    (hrt : pyGet res "resourceType" = some (.str "Encounter"))
    (hper : asObj (orEmptyObj (pyGet res "period")) = Except.ok per) :
    occurred_at res now = luFallback res [pyGet per "start"] now
    ∧ (∀ v, pyGet per "start" = some v → pyTruthy v = true →
        occurred_at res now = Except.ok v) := by
  have main : occurred_at res now = luFallback res [pyGet per "start"] now := by
    unfold occurred_at
    rw [hrt]
    simp only [Option.some.injEq, reduceCtorEq, if_false]
    simp [hper, Bind.bind, Except.bind]
  refine ⟨main, ?_⟩
  intro v hv htv
  rw [main]
  unfold luFallback firstTruthy
  rw [hv]
  simp [htv, firstTruthy]

/-- The C7 chain applied to the concrete finished Encounter: the truthy
`period.start` is returned. -/
theorem C7_encounter_occurred_at_witness :
    pyGet encFinishedPeriod "resourceType" = some (.str "Encounter")
    ∧ asObj (orEmptyObj (pyGet encFinishedPeriod "period"))
        = Except.ok [("start", .str "2025-01-01T00:00:00Z"),
                     ("end", .str "2025-01-02T00:00:00Z")]
    ∧ occurred_at encFinishedPeriod "NOW"
        = luFallback encFinishedPeriod
            [pyGet [("start", JValue.str "2025-01-01T00:00:00Z"),
                    ("end", JValue.str "2025-01-02T00:00:00Z")] "start"] "NOW" :=
  ⟨rfl, rfl,
   (C7_encounter_occurred_at encFinishedPeriod
     [("start", .str "2025-01-01T00:00:00Z"), ("end", .str "2025-01-02T00:00:00Z")]
     "NOW" rfl rfl).1⟩

/-! ### Claim C8 -/

/-- A small well-formed Observation for the C8 round trip. -/
def obsRoundTrip : Obj :=
  [("resourceType", .str "Observation"), ("id", .str "w8"), ("status", .str "final")]

/-- Claim C8: for every routed resource dictionary that is well formed as a
JSON value (scalar strings, no duplicate keys), the `resource` field of the
built envelope parses back to a value deep-equal to the resource — the
payload is carried verbatim. -/
theorem C8_resource_roundtrip (topic now : String) (res : Obj) (e : Envelope)
    (h : build_envelope topic res now = Except.ok e) (hwf : jwf (.obj res) = true) :
    json_loads e.resource = some (.obj res) := by
  obtain ⟨occ, pref, hocc, hpr, he⟩ := build_envelope_fields topic now res e h
  rw [he]
  exact json_loads_dumps (.obj res) hwf

/-- The C8 round trip applied to a concrete Observation. -/
theorem C8_resource_roundtrip_witness :
    ∃ e, build_envelope "results.final.v1" obsRoundTrip "NOW" = Except.ok e
      ∧ jwf (.obj obsRoundTrip) = true
      ∧ json_loads e.resource = some (.obj obsRoundTrip) :=
  ⟨_, rfl, rfl, C8_resource_roundtrip "results.final.v1" "NOW" obsRoundTrip _ rfl rfl⟩

/-! ### Claim C9 -/

/-- A payload that carries the five envelope marker keys. -/
def envelopePayload : Obj :=
  [("event_id", .str "abc"), ("topic", .str "results.final.v1"),
   ("resource_type", .str "Observation"), ("resource", .str "x"),
   ("provenance", .null)]

/-- Claim C9: a decoded payload dictionary holding all five keys
`event_id`, `topic`, `resource_type`, `resource` and `provenance` is
answered HTTP 200 with status "skipped" and an empty effect list — no
fetch, no classification, no publish; the same holds for an unwrapped body
without a `message` key. -/
theorem C9_envelope_skip (attrs : JValue) (po : Obj) (pe : Option String)
    (adc now : String) (f : String → Option JValue)
    (p : String → Envelope → Option String)
    (h1 : pyHasKey po "event_id" = true) (h2 : pyHasKey po "topic" = true)
    (h3 : pyHasKey po "resource_type" = true) (h4 : pyHasKey po "resource" = true)
    (h5 : pyHasKey po "provenance" = true) :
    route_payload attrs (.obj po) pe adc f p now
      = (PushResult.resp 200 "skipped" none none, [])
    ∧ (pyGet po "message" = none →
      pubsub_push (some (.obj po)) pe adc f p now
        = (PushResult.resp 200 "skipped" none none, [])) := by
  have hroute : ∀ a : JValue, route_payload a (.obj po) pe adc f p now
      = (PushResult.resp 200 "skipped" none none, []) := by
    intro a
    unfold route_payload
    simp [_looks_like_envelope, h1, h2, h3, h4, h5]
  refine ⟨hroute attrs, fun hm => ?_⟩
  unfold pubsub_push
  simp only [hm]
  exact hroute (.obj [])

/-- The C9 skip rule applied to a concrete enveloped payload, both below
and at the endpoint. -/
theorem C9_envelope_skip_witness :
    pyHasKey envelopePayload "event_id" = true
    ∧ pyHasKey envelopePayload "topic" = true
    ∧ pyHasKey envelopePayload "resource_type" = true
    ∧ pyHasKey envelopePayload "resource" = true
    ∧ pyHasKey envelopePayload "provenance" = true
    ∧ route_payload (.obj []) (.obj envelopePayload) none "adc"
        (fun _ => none) (fun _ _ => none) "NOW"
      = (PushResult.resp 200 "skipped" none none, [])
    ∧ pubsub_push (some (.obj envelopePayload)) none "adc"
        (fun _ => none) (fun _ _ => none) "NOW"
      = (PushResult.resp 200 "skipped" none none, []) :=
  ⟨rfl, rfl, rfl, rfl, rfl,
   (C9_envelope_skip (.obj []) envelopePayload none "adc" "NOW"
     (fun _ => none) (fun _ _ => none) rfl rfl rfl rfl rfl).1,
   (C9_envelope_skip (.obj []) envelopePayload none "adc" "NOW"
     (fun _ => none) (fun _ _ => none) rfl rfl rfl rfl rfl).2 rfl⟩

/-! ### Claim C10 -/

/-- Whether a coerced value is a dictionary. -/
def jIsDict : JValue → Bool
  | .obj _ => true
  | _ => false

/-- Claim C10 is refuted on concrete inputs: a string whose stripped text
opens with a bracket parses as a JSON array and is returned as that array,
and a byte string holding the digit 5 parses as the number 5 — in neither
case does `_coerce_resource` return a dictionary. -/
theorem C10_counterexample :
    _coerce_resource (.str "[1, 2]") = .arr [.num 1, .num 2]
    ∧ jIsDict (_coerce_resource (.str "[1, 2]")) = false
    ∧ _coerce_resource (.bytes [53]) = .num 5
    ∧ jIsDict (_coerce_resource (.bytes [53])) = false :=
  ⟨rfl, rfl, rfl, rfl⟩

/-- Claim C10 as amended: `_coerce_resource` is total — every input value
yields a result, never an exception — and the result is either a
dictionary (the input itself, or a \x7b"raw": text\x7d wrapper) or the
value a successful JSON parse produced for the input's decoded text. -/
theorem C10_coerce_total (v : PyVal) :
    (∃ kvs, _coerce_resource v = .obj kvs)
    ∨ (∃ s j, json_loads s = some j ∧ _coerce_resource v = j) := by
  cases v with
  | dict kvs => exact .inl ⟨kvs, rfl⟩
  | bytes bs =>
    cases hd : utf8Decode bs with
    | none =>
      refine .inl ⟨[("raw", .str (utf8DecodeIgnore bs))], ?_⟩
      simp [_coerce_resource, hd]
    | some s =>
      cases hj : json_loads s with
      | none =>
        refine .inl ⟨[("raw", .str (utf8DecodeIgnore bs))], ?_⟩
        simp [_coerce_resource, hd, hj]
      | some j =>
        refine .inr ⟨s, j, hj, ?_⟩
        simp [_coerce_resource, hd, hj]
  | str s =>
    by_cases hb : pyStrip s ≠ "" ∧ ((pyStrip s).data.head? = some '\x7b'
        ∨ (pyStrip s).data.head? = some '[')
    · cases hj : json_loads (pyStrip s) with
      | none =>
        refine .inl ⟨[("raw", .str (pyStrip s))], ?_⟩
        simp only [_coerce_resource]
        rw [if_pos hb, hj]
      | some j =>
        refine .inr ⟨pyStrip s, j, hj, ?_⟩
        simp only [_coerce_resource]
        rw [if_pos hb, hj]
    · refine .inl ⟨[("raw", .str (pyStrip s))], ?_⟩
      simp only [_coerce_resource]
      rw [if_neg hb]
  | other r => exact .inl ⟨[("raw", .str r)], rfl⟩
